import Mathlib

/-!
Verification of the thoth-python manifest data model and provenance checks.

The definitions below are a shallow embedding of `src/thoth/python/project.py`
and `src/thoth/python/pipfile.py`.  Python dictionaries are modelled as
insertion-ordered association lists with unique keys; Python exceptions are
modelled with `Except`/explicit error constructors; external collaborators
(TOML/JSON text parsing and serialization, SHA-256, live package indexes) are
modelled as parameters.  Components of the repository whose files are not part
of the provided sources (`package_version.py`, `packages.py`, `source.py`) are
modelled from the specification, as flagged in the corresponding doc comments.
-/

namespace ThothPython

/-- A package source (index), from `source.py` as described by the spec data
model: `{name, url, verify_ssl}` (the warehouse flags play no role in the
audited operations and are omitted). -/
structure Source where
  name : String
  url : String
  verify_ssl : Bool
deriving DecidableEq, Repr

/-- A dependency entry, following the spec data model for `package_version.py`:
name, version-constraint string, develop flag, optional owning `Source`,
ordered `"sha256:<hex>"` hash strings and optional markers. -/
structure PackageVersion where
  name : String
  version : String
  develop : Bool := false
  index : Option Source := none
  hashes : List String := []
  markers : Option String := none
deriving DecidableEq, Repr

/-- Replace the value stored under `k` if present (keeping its position, as a
Python `dict` assignment does), otherwise append the binding at the end. -/
def dictInsert {α : Type} (d : List (String × α)) (k : String) (v : α) :
    List (String × α) :=
  match d with
  | [] => [(k, v)]
  | (k₀, v₀) :: rest =>
    if k₀ = k then (k, v) :: rest else (k₀, v₀) :: dictInsert rest k v

/-- `dict.get k` / `k in dict`: the first binding of `k`, if any. -/
def dictGet {α : Type} (d : List (String × α)) (k : String) : Option α :=
  match d with
  | [] => none
  | (k₀, v₀) :: rest => if k₀ = k then some v₀ else dictGet rest k

theorem dictGet_dictInsert {α : Type} (d : List (String × α)) (k n : String) (v : α) :
    dictGet (dictInsert d k v) n = if n = k then some v else dictGet d n := by
  induction d with
  | nil =>
    by_cases h : n = k
    · simp [dictInsert, dictGet, h]
    · simp [dictInsert, dictGet, h, Ne.symm h]
  | cons p rest ih =>
    obtain ⟨k₀, v₀⟩ := p
    by_cases hk : k₀ = k
    · subst hk
      by_cases hn : n = k₀
      · subst hn
        simp [dictInsert, dictGet]
      · simp [dictInsert, dictGet, hn, Ne.symm hn]
    · simp only [dictInsert, if_neg hk, dictGet]
      by_cases hn : k₀ = n
      · subst hn
        simp [hk]
      · rw [if_neg hn, ih]
        by_cases hnk : n = k
        · simp [hnk, hn]
        · simp [hnk, hn]

/-- A `Packages` collection (`packages.py` is not among the provided sources).
Modelled from the spec: an insertion-ordered mapping from package name to
`PackageVersion` with a uniform `develop` flag. -/
structure Packages where
  packages : List (String × PackageVersion)
  develop : Bool := false
deriving DecidableEq, Repr

/-- `Packages.get`: mapping lookup by package name. -/
def Packages.get (ps : Packages) (package_name : String) : Option PackageVersion :=
  dictGet ps.packages package_name

/-- The `PackageVersion` values of the collection, in insertion order. -/
def Packages.values (ps : Packages) : List PackageVersion :=
  ps.packages.map Prod.snd

/-- Metadata section of a Pipfile/Pipfile.lock (`PipfileMeta` in `pipfile.py`):
the `sources` mapping name -> Source and the `requires` mapping. The remaining
fields (`pipenv`, `hash`, `pipfile_spec`) play no role in the audited
operations. -/
structure PipfileMeta where
  sources : List (String × Source)
  requires : List (String × String) := []
deriving DecidableEq, Repr

/-- `_PipfileBase` data: regular and develop package collections plus
metadata (`pipfile.py`). `Pipfile` and `PipfileLock` share this shape. -/
structure PipfileBase where
  packages : Packages
  dev_packages : Packages
  meta : PipfileMeta
deriving DecidableEq, Repr

/-- A `Project` (`project.py`): one Pipfile and at most one Pipfile.lock. -/
structure Project where
  pipfile : PipfileBase
  pipfile_lock : Option PipfileBase := none
deriving DecidableEq, Repr

/-- `Project.get_locked_package_version` (`project.py`): look the name up in
the locked dev-packages first, falling back to the locked regular packages
(`if not package_version` in the source is a `None` test — `PackageVersion`
instances are always truthy).  Stated over the project's `PipfileLock`; the
Python code dereferences `self.pipfile_lock` unconditionally. -/
def Project.get_locked_package_version (pipfile_lock : PipfileBase)
    (package_name : String) : Option PackageVersion :=
  match pipfile_lock.dev_packages.get package_name with
  | some package_version => some package_version
  | none => pipfile_lock.packages.get package_name

/-- `Project.get_package_version` (`project.py`): the same lookup over the
unlocked Pipfile's collections. -/
def Project.get_package_version (proj : Project)
    (package_name : String) : Option PackageVersion :=
  match proj.pipfile.dev_packages.get package_name with
  | some package_version => some package_version
  | none => proj.pipfile.packages.get package_name

/-- One entry of a provenance report (`project.py` builds these as dicts).
Only the claim-relevant projections are modelled: the severity (`type` in the
source), the finding `id`, the reported `source` and the package name; the
interpolated justification strings and echo-back payload fields are omitted. -/
structure Finding where
  ftype : String
  id : String
  source : Option Source := none
  package_name : Option String := none
deriving DecidableEq, Repr

/-- `Project._check_sources` (`project.py` lines 348-372): for every configured
source, report an ERROR `SOURCE-NOT-WHITELISTED` when a (non-empty) whitelist
is given and the source url is not in it, and otherwise (`elif`) a WARNING
`INSECURE-SOURCE` when SSL verification is disabled.  A `None` whitelist and an
empty list are both falsy in the source and are modelled by `[]`. -/
def Project._check_sources (proj : Project) (whitelisted_sources : List String) :
    List Finding :=
  (proj.pipfile.meta.sources.map Prod.snd).flatMap fun source =>
    if whitelisted_sources ≠ [] ∧ source.url ∉ whitelisted_sources then
      [{ ftype := "ERROR", id := "SOURCE-NOT-WHITELISTED", source := some source }]
    else if ¬ source.verify_ssl then
      [{ ftype := "WARNING", id := "INSECURE-SOURCE", source := some source }]
    else []

/-- Python runtime errors surfaced by the audited operations. -/
inductive PyError where
  | attributeError
  | internalError
  | notFound
deriving DecidableEq, Repr

/-- The attribute access `source.url` inside
`PipfileMeta.to_requirements_index_conf` (`pipfile.py` line 109/112).  The
loop iterates `self.sources.items()`, so `source` is a `(name, Source)` tuple,
which has no `url` attribute: the access raises `AttributeError`. -/
def itemUrl (_item : String × Source) : Except PyError String :=
  .error .attributeError

/-- Loop body of `PipfileMeta.to_requirements_index_conf`. -/
def toReqIndexConfGo (result : String) (primary_index_added : Bool) :
    List (String × Source) → Except PyError String
  | [] => .ok result
  | item :: rest => do
    let url ← itemUrl item
    if primary_index_added then
      toReqIndexConfGo (result ++ "--extra-index-url " ++ url ++ "\n") true rest
    else
      toReqIndexConfGo (result ++ "-i " ++ url ++ "\n") true rest

/-- `PipfileMeta.to_requirements_index_conf` (`pipfile.py` lines 102-114). -/
def PipfileMeta.to_requirements_index_conf (meta : PipfileMeta) :
    Except PyError String :=
  toReqIndexConfGo "" false meta.sources

/-- Outcome of running `Pipfile.parse` / related classmethods: either a value,
a raised `PipfileParseError`, or a raised `NotImplementedError`. -/
inductive ParseOutcome (α : Type) where
  | ok (a : α)
  | pipfileParseError
  | notImplementedError
deriving DecidableEq, Repr

/-- `Pipfile.from_string` (`pipfile.py` lines 249-262).  The TOML and JSON text
parsers are external collaborators; `structuredParse` stands for their
composition with `Pipfile.from_dict`: `some` when either parser accepts the
text, `none` when both raise (in which case the source raises
`PipfileParseError`). -/
def Pipfile.from_string (structuredParse : String → Option PipfileBase)
    (pipfile_content : String) : ParseOutcome PipfileBase :=
  match structuredParse pipfile_content with
  | some parsed => .ok parsed
  | none => .pipfileParseError

/-- `_PipfileBase.from_requirements` (`pipfile.py` lines 150-152): the
requirements-text fallback is a `raise NotImplementedError` stub, and
`Pipfile` never overrides it. -/
def Pipfile.from_requirements (_requirements_content : String) :
    ParseOutcome PipfileBase :=
  .notImplementedError

/-- `_PipfileBase.parse` (`pipfile.py` lines 158-168): try `from_string`;
a raised `PipfileParseError` (and only that) is caught and answered by calling
`from_requirements`. -/
def Pipfile.parse (structuredParse : String → Option PipfileBase)
    (content : String) : ParseOutcome PipfileBase :=
  match Pipfile.from_string structuredParse content with
  | .pipfileParseError => Pipfile.from_requirements content
  | r => r

/-- `PackageVersion.is_locked` (`package_version.py` is not among the provided
sources).  Modelled from the spec: true iff the version constraint is a single
exact `"=="` pin (so it starts with `"=="` and is not a comma-joined
conjunction). -/
def PackageVersion.is_locked (pv : PackageVersion) : Bool :=
  decide (pv.version.data.take 2 = ['=', '=']) && !(pv.version.data.contains ',')

/-- `PackageVersion.negate_version` (`package_version.py` is not among the
provided sources).  Modelled from the spec: rewrites an exact pin `"==V"` into
the exclusion constraint `"!=V"`; a fatal programmer error on a non-exact
version. -/
def PackageVersion.negate_version (pv : PackageVersion) :
    Except PyError PackageVersion :=
  if pv.version.data.take 2 = ['=', '='] then
    .ok { pv with version := "!=" ++ String.mk (pv.version.data.drop 2) }
  else
    .error .internalError

/-- The dev/regular Pipfile section `exclude_package` operates on
(`project.py` line 299). -/
def Project.sectionOf (pf : PipfileBase) (pv : PackageVersion) : Packages :=
  if pv.develop then pf.dev_packages else pf.packages

/-- Write an updated section back into the Pipfile. -/
def Project.setSection (pf : PipfileBase) (pv : PackageVersion)
    (ps : Packages) : PipfileBase :=
  if pv.develop then { pf with dev_packages := ps } else { pf with packages := ps }

/-- `Project.exclude_package` (`project.py` lines 294-330): reject unpinned
packages with `InternalError`; negate the new entry's version; when an entry
with the same name already exists and its constraint is not `"*"`, store
`"<negated new constraint>,<existing constraint>"` (the f-string
`f"{package_version.version},{to_exclude_package.version}"`, where
`package_version.version` has already been negated); otherwise store the
plain negated constraint.  The logging-only warnings and the trailing
`pipenv_lock()` call (an external tool invocation) are not modelled; the
result is the updated Pipfile. -/
def Project.exclude_package (pf : PipfileBase) (package_version : PackageVersion) :
    Except PyError PipfileBase :=
  if ¬ package_version.is_locked then .error .internalError
  else
    match (Project.sectionOf pf package_version).get package_version.name with
    | some to_exclude_package => do
      let negated ← package_version.negate_version
      let combined :=
        if to_exclude_package.version ≠ "*" then
          { negated with version := negated.version ++ "," ++ to_exclude_package.version }
        else negated
      let sect := Project.sectionOf pf package_version
      .ok (Project.setSection pf package_version
        { sect with packages := dictInsert sect.packages package_version.name combined })
    | none => do
      let negated ← package_version.negate_version
      let sect := Project.sectionOf pf package_version
      .ok (Project.setSection pf package_version
        { sect with packages := dictInsert sect.packages package_version.name negated })

/-- One artifact record of a digest report: `item.get("name")` and
`item["sha256"]` are the only fields the scan reads. -/
structure DigestItem where
  name : Option String := none
  sha256 : String
deriving DecidableEq, Repr

/-- The result of `digests_fetcher.fetch_digests` for one package: an
insertion-ordered mapping from source url to the artifact records that source
reports. -/
abbrev IndexReport := List (String × List DigestItem)

/-- Strip the pipenv-specific `"sha256:"` formatting from a recorded hash
(`h[len("sha256:"):]` in the source). -/
def stripHashTag (h : String) : String := String.mk (h.data.drop 7)

/-- Extend `other_sources[index_url]` with the matching artifact entries,
creating the key at the end of the mapping if it is absent
(`project.py` lines 444-447). -/
def extendOtherSources (os : List (String × List (Option String × String)))
    (index_url : String) (entries : List (Option String × String)) :
    List (String × List (Option String × String)) :=
  match dictGet os index_url with
  | none => os ++ [(index_url, entries)]
  | some existing => dictInsert os index_url (existing ++ entries)

/-- `other_sources` accumulation of `Project._check_scan`
(`project.py` lines 429-447): for every recorded hash of the package and every
reported source other than the package's own index, collect the
`(name, sha256)` pairs of artifacts whose digest matches. -/
def otherSourcesOf (package_version : PackageVersion) (idx : Source)
    (index_report : IndexReport) : List (String × List (Option String × String)) :=
  package_version.hashes.foldl
    (fun os artifact_hash =>
      let ah := stripHashTag artifact_hash
      index_report.foldl
        (fun os p =>
          if p.1 = idx.url then os
          else
            let artifact_entry := (p.2.filter (fun i => i.sha256 = ah)).map
              (fun i => (i.name, i.sha256))
            if artifact_entry = [] then os
            else extendOtherSources os p.1 artifact_entry)
        os)
    []

/-- The `DIFFERENT-ARTIFACTS-ON-SOURCES` block of `Project._check_scan`
(`project.py` lines 401-417): only for packages without an explicit index when
more than one source reports, and only when the union of all reported hash
sets (`set(chain(*hashes))`) differs from the first source's hash set
(`set(hashes[0])`). -/
def checkScanBlock1 (package_version : PackageVersion) (index_report : IndexReport) :
    List Finding :=
  let hashes : List (List String) := index_report.map (fun e => e.2.map (·.sha256))
  if package_version.index = none ∧ index_report.length > 1 then
    if hashes.flatten.toFinset ≠ (hashes.headD []).toFinset then
      [{ ftype := "WARNING", id := "DIFFERENT-ARTIFACTS-ON-SOURCES",
         package_name := some package_version.name }]
    else []
  else []

/-- The `ARTIFACT-DIFFERENT-SOURCE` / `ARTIFACT-POSSIBLE-DIFFERENT-SOURCE`
block of `Project._check_scan` (`project.py` lines 424-481): runs only when the
package has an explicit index, `index_report.get(index.url)` is truthy (key
present with a non-empty list) and more than one source reports. -/
def checkScanBlock2 (package_version : PackageVersion) (index_report : IndexReport) :
    List Finding :=
  match package_version.index with
  | none => []
  | some idx =>
    match dictGet index_report idx.url with
    | none => []
    | some entries =>
      if entries ≠ [] ∧ index_report.length > 1 then
        let used_package_version_hashes :=
          (package_version.hashes.map stripHashTag).toFinset
        let configured_index_hashes := (entries.map (·.sha256)).toFinset
        let other_sources := otherSourcesOf package_version idx index_report
        if ¬ used_package_version_hashes ⊆ configured_index_hashes then
          [{ ftype := "ERROR", id := "ARTIFACT-DIFFERENT-SOURCE",
             source := some idx, package_name := some package_version.name }]
        else if other_sources ≠ [] then
          [{ ftype := "INFO", id := "ARTIFACT-POSSIBLE-DIFFERENT-SOURCE",
             source := some idx, package_name := some package_version.name }]
        else []
      else []

/-- The `MISSING-PACKAGE` block of `Project._check_scan`
(`project.py` lines 483-498): the package has an explicit index but
`index_report.get(index.url)` is falsy (key absent, or an empty list). -/
def checkScanBlock3 (package_version : PackageVersion) (index_report : IndexReport) :
    List Finding :=
  match package_version.index with
  | none => []
  | some idx =>
    if (dictGet index_report idx.url).getD [] = [] then
      [{ ftype := "ERROR", id := "MISSING-PACKAGE",
         source := some idx, package_name := some package_version.name }]
    else []

/-- The `INVALID-ARTIFACT-HASH` block of `Project._check_scan`
(`project.py` lines 500-518): one ERROR per recorded hash that no reported
source carries (the `for ... else` over `index_report.values()`). -/
def checkScanBlock4 (package_version : PackageVersion) (index_report : IndexReport) :
    List Finding :=
  package_version.hashes.flatMap fun digest =>
    let d := stripHashTag digest
    if index_report.any (fun p => p.2.any (fun item => item.sha256 = d)) then []
    else
      [{ ftype := "ERROR", id := "INVALID-ARTIFACT-HASH",
         source := package_version.index, package_name := some package_version.name }]

/-- `Project._check_scan` (`project.py` lines 390-520): the four checks in
source order, accumulated into one report. -/
def Project._check_scan (package_version : PackageVersion)
    (index_report : IndexReport) : List Finding :=
  checkScanBlock1 package_version index_report
    ++ checkScanBlock2 package_version index_report
    ++ checkScanBlock3 package_version index_report
    ++ checkScanBlock4 package_version index_report

/-- `PackageVersion.semantic_version` (`package_version.py` is not among the
provided sources).  Modelled from the spec: parses a single exact pin `"==V"`
into the comparable version value `V`. -/
def PackageVersion.semantic_version (pv : PackageVersion) : String :=
  String.mk (pv.version.data.drop 2)

/-- `Source.get_latest_package_version` (`source.py` is not among the provided
sources) is an external index query.  Modelled from the spec as a capability:
`none` stands for a raised `NotFound` (the index has no such package). -/
abbrev LatestFetcher := Source → String → Option String

/-- The accumulated outdated-package mapping: package name to the
`(package_version, latest)` pair stored by `result[package_version.name] = ...`. -/
abbrev OutdatedResult := List (String × (PackageVersion × String))

/-- Per-package body of `Project.get_outdated_package_versions`
(`project.py` lines 229-250).  With an explicit index, a `NotFound` from that
index propagates; without one, every configured source is probed in order,
`NotFound` answers are skipped, any answering source updates the result when
the pinned version differs from its reported latest, and `NotFound` is raised
when no source answered. -/
def processLockedPackage (fetch : LatestFetcher) (sources : List Source)
    (package_version : PackageVersion) (result : OutdatedResult) :
    Except PyError OutdatedResult :=
  match package_version.index with
  | some idx =>
    match fetch idx package_version.name with
    | none => .error .notFound
    | some latest =>
      if package_version.semantic_version ≠ latest then
        .ok (dictInsert result package_version.name (package_version, latest))
      else .ok result
  | none =>
    let step := sources.foldl
      (fun (st : Bool × OutdatedResult) index =>
        match fetch index package_version.name with
        | none => st
        | some latest =>
          (true,
           if package_version.semantic_version ≠ latest then
             dictInsert st.2 package_version.name (package_version, latest)
           else st.2))
      (false, result)
    if step.1 then .ok step.2 else .error .notFound

/-- The loop of `Project.get_outdated_package_versions` over
`iter_dependencies_locked`. -/
def outdatedGo (fetch : LatestFetcher) (sources : List Source) :
    List PackageVersion → OutdatedResult → Except PyError OutdatedResult
  | [], result => .ok result
  | pv :: rest, result => do
    let result' ← processLockedPackage fetch sources pv result
    outdatedGo fetch sources rest result'

/-- `Project.iter_dependencies_locked` (`project.py` lines 332-339) for a
locked project: the locked regular packages followed by the locked
dev-packages when `with_devel` is set. -/
def lockedDependencies (pipfile_lock : PipfileBase) (with_devel : Bool) :
    List PackageVersion :=
  if with_devel then pipfile_lock.packages.values ++ pipfile_lock.dev_packages.values
  else pipfile_lock.packages.values

/-- `Project.get_outdated_package_versions` (`project.py` lines 217-252):
`InternalError` on an unlocked project, otherwise the per-package check over
the locked dependencies, probing `self.pipfile_lock.meta.sources.values()`. -/
def Project.get_outdated_package_versions (fetch : LatestFetcher) (proj : Project)
    (devel : Bool) : Except PyError OutdatedResult :=
  match proj.pipfile_lock with
  | none => .error .internalError
  | some pipfile_lock =>
    outdatedGo fetch (pipfile_lock.meta.sources.map Prod.snd)
      (lockedDependencies pipfile_lock devel) []

/-- `_index_check` inside `_PipfileBase.sanitize_source_indexes`
(`pipfile.py` lines 191-206): a registered source passes when it is the very
same source; a source with the package index's name but a different url, or a
different `verify_ssl` setting, raises `InternalError`.  (The Python identity
shortcut `source is package_version.index` is modelled by structural equality;
a structurally equal source passes both subsequent tests anyway.) -/
def indexCheck (pv_index : Source) (source : Source) : Except PyError Unit :=
  if source = pv_index then .ok ()
  else if source.name = pv_index.name ∧ source.url ≠ pv_index.url then
    .error .internalError
  else if source.name = pv_index.name ∧ source.verify_ssl ≠ pv_index.verify_ssl then
    .error .internalError
  else .ok ()

/-- `for source in self.meta.sources.values(): _index_check(...)`
(`pipfile.py` lines 213-214). -/
def indexCheckAll (pv_index : Source) : List Source → Except PyError Unit
  | [] => .ok ()
  | s :: rest => do
    indexCheck pv_index s
    indexCheckAll pv_index rest

/-- The loop of `_PipfileBase.sanitize_source_indexes`
(`pipfile.py` lines 208-217) over the packages of both collections, threading
the `meta.sources` mapping: a package index whose name is not yet registered is
validated against every registered source and then inserted; a registered name
is validated against the registered source of that name only. -/
def sanitizeGo : List PackageVersion → List (String × Source) →
    Except PyError (List (String × Source))
  | [], sources => .ok sources
  | pv :: rest, sources =>
    match pv.index with
    | none => sanitizeGo rest sources
    | some idx =>
      match dictGet sources idx.name with
      | none => do
        indexCheckAll idx (sources.map Prod.snd)
        sanitizeGo rest (dictInsert sources idx.name idx)
      | some s => do
        indexCheck idx s
        sanitizeGo rest sources

/-- `_PipfileBase.sanitize_source_indexes` (`pipfile.py` lines 187-217):
returns the Pipfile with the sanitized `meta.sources`, or the raised
`InternalError`. -/
def PipfileBase.sanitize_source_indexes (pb : PipfileBase) :
    Except PyError PipfileBase := do
  let sources' ← sanitizeGo (pb.packages.values ++ pb.dev_packages.values)
    pb.meta.sources
  .ok { pb with meta := { pb.meta with sources := sources' } }

/-- JSON documents, as far as `Pipfile.data`/`Pipfile.hash` build them.
`json.dumps` itself is an external collaborator (see `pipfileHash`). -/
inductive Json where
  | str (s : String)
  | jbool (b : Bool)
  | arr (xs : List Json)
  | obj (fields : List (String × Json))

/-- Key order used by `json.dumps(..., sort_keys=True)` on object fields. -/
def keyLe (a b : String × Json) : Prop := a.1 ≤ b.1

instance : DecidableRel keyLe := fun a b => inferInstanceAs (Decidable (a.1 ≤ b.1))

instance : IsTotal (String × Json) keyLe := ⟨fun a b => le_total a.1 b.1⟩

instance : IsTrans (String × Json) keyLe := ⟨fun _ _ _ h₁ h₂ => le_trans h₁ h₂⟩

/-- Object fields in the canonical (sorted-keys) order produced by
`json.dumps(..., sort_keys=True)`. -/
def sortByKey (l : List (String × Json)) : List (String × Json) :=
  l.insertionSort keyLe

/-- `Source.to_dict` (`source.py` is not among the provided sources).
Modelled from the spec data model: the `{name, url, verify_ssl}` table, with
fields listed in the canonical sorted-keys order. -/
def Source.to_dict (s : Source) : Json :=
  .obj [("name", .str s.name), ("url", .str s.url), ("verify_ssl", .jbool s.verify_ssl)]

/-- The Pipfile-shaped (short form) entry of one package
(`packages.py`/`package_version.py` are not among the provided sources).
Modelled from the spec: a bare version-constraint string, or a
`{version, index}` table when an index is assigned (fields listed in the
canonical sorted-keys order). -/
def packageEntry (pv : PackageVersion) : Json :=
  match pv.index with
  | none => .str pv.version
  | some idx => .obj [("index", .str idx.name), ("version", .str pv.version)]

/-- `Packages.to_pipfile` (`packages.py` is not among the provided sources).
Modelled from the spec: the name -> entry mapping in collection order. -/
def Packages.to_pipfile (ps : Packages) : List (String × Json) :=
  ps.packages.map (fun p => (p.1, packageEntry p.2))

/-- `Pipfile.data` (`pipfile.py` lines 224-230) composed with the
canonicalization performed by `json.dumps(..., sort_keys=True)`
(`pipfile.py` line 299): the document
`{"default": packages, "develop": dev_packages, "_meta": {"requires": ...,
"sources": [...]}}` with every object's keys in sorted order (the fixed-key
objects are written pre-sorted; package and requires mappings are sorted
explicitly; the sources array keeps its insertion order, as `sort_keys` does
not reorder arrays). -/
def Pipfile.dataCanon (pf : PipfileBase) : Json :=
  .obj
    [("_meta", .obj
        [("requires", .obj (sortByKey (pf.meta.requires.map (fun p => (p.1, Json.str p.2))))),
         ("sources", .arr (pf.meta.sources.map (fun p => Source.to_dict p.2)))]),
     ("default", .obj (sortByKey pf.packages.to_pipfile)),
     ("develop", .obj (sortByKey pf.dev_packages.to_pipfile))]

/-- `Pipfile.hash` (`pipfile.py` lines 296-302): the `{"sha256": hexdigest}`
tag over the canonical serialization of `Pipfile.data`.  The remaining
serialization step of `json.dumps` and `hashlib.sha256(...).hexdigest()` are
external collaborators, modelled as the parameters `dumps` and `sha256hex`. -/
def pipfileHash {S D : Type} (dumps : Json → S) (sha256hex : S → D)
    (pf : PipfileBase) : String × D :=
  ("sha256", sha256hex (dumps (Pipfile.dataCanon pf)))

/-- C10: `get_locked_package_version` returns the dev-packages entry when the
name is present there (so dev takes precedence when both collections contain
it), falls back to the regular locked entry when the dev lookup misses, and
returns `None` when neither collection contains the name;
`get_package_version` behaves the same way over the unlocked Pipfile. -/
theorem claim_C10_package_lookup_precedence
    (lock : PipfileBase) (proj : Project) (name : String) :
    (∀ pvd, lock.dev_packages.get name = some pvd →
      Project.get_locked_package_version lock name = some pvd) ∧
    (∀ pvr, lock.dev_packages.get name = none → lock.packages.get name = some pvr →
      Project.get_locked_package_version lock name = some pvr) ∧
    (lock.dev_packages.get name = none → lock.packages.get name = none →
      Project.get_locked_package_version lock name = none) ∧
    (∀ pvd, proj.pipfile.dev_packages.get name = some pvd →
      Project.get_package_version proj name = some pvd) ∧
    (∀ pvr, proj.pipfile.dev_packages.get name = none →
      proj.pipfile.packages.get name = some pvr →
      Project.get_package_version proj name = some pvr) ∧
    (proj.pipfile.dev_packages.get name = none →
      proj.pipfile.packages.get name = none →
      Project.get_package_version proj name = none) := by
  refine ⟨?_, ?_, ?_, ?_, ?_, ?_⟩
  · intro pvd h
    simp [Project.get_locked_package_version, h]
  · intro pvr h h'
    simp [Project.get_locked_package_version, h, h']
  · intro h h'
    simp [Project.get_locked_package_version, h, h']
  · intro pvd h
    simp [Project.get_package_version, h]
  · intro pvr h h'
    simp [Project.get_package_version, h, h']
  · intro h h'
    simp [Project.get_package_version, h, h']

/-- An empty regular package collection (used by concrete examples). -/
def noPackages : Packages := { packages := [] }

/-- An empty develop package collection (used by concrete examples). -/
def noDevPackages : Packages := { packages := [], develop := true }

/-- A Pipfile holding only the given sources (used by concrete examples). -/
def pipfileOfSources (sources : List (String × Source)) : PipfileBase :=
  { packages := noPackages, dev_packages := noDevPackages,
    meta := { sources := sources } }

/-- The locked manifest of the C10 witness: `"both"` is in both collections,
`"reg"` only in the regular one. -/
def lockC10 : PipfileBase :=
  { packages :=
      { packages :=
          [("both", { name := "both", version := "==1.0" }),
           ("reg", { name := "reg", version := "==3.0" })] },
    dev_packages :=
      { packages := [("both", { name := "both", version := "==2.0" })],
        develop := true },
    meta := { sources := [] } }

/-- Witness for C10 at a concrete project: `"both"` resolves to the dev entry,
`"reg"` to the regular entry, and `"absent"` to `none`. -/
theorem claim_C10_package_lookup_precedence_witness :
    Project.get_locked_package_version lockC10 "both" =
      some { name := "both", version := "==2.0" } ∧
    Project.get_locked_package_version lockC10 "reg" =
      some { name := "reg", version := "==3.0" } ∧
    Project.get_locked_package_version lockC10 "absent" = none :=
  ⟨(claim_C10_package_lookup_precedence lockC10
      { pipfile := pipfileOfSources [] } "both").1 _ (by decide),
   (claim_C10_package_lookup_precedence lockC10
      { pipfile := pipfileOfSources [] } "reg").2.1 _ (by decide) (by decide),
   (claim_C10_package_lookup_precedence lockC10
      { pipfile := pipfileOfSources [] } "absent").2.2.1 (by decide) (by decide)⟩

/-- The SSL-disabled source of the C3 scenario. -/
def insecureSource : Source := Source.mk "insecure" "https://x.example" false

/-- A project configured with just the SSL-disabled source. -/
def projC3 : Project :=
  { pipfile := pipfileOfSources [("insecure", insecureSource)] }

/-- C3 fails on the code: when a whitelist is supplied and an SSL-disabled
source is not whitelisted, the `elif` in `_check_sources` suppresses the
`INSECURE-SOURCE` warning — the source gets only the whitelist ERROR. -/
theorem claim_C3_counterexample :
    insecureSource.verify_ssl = false ∧
    (Project._check_sources projC3 ["https://allowed.example"]).filter
      (fun f => f.id = "INSECURE-SOURCE") = [] ∧
    Project._check_sources projC3 ["https://allowed.example"] =
      [{ ftype := "ERROR", id := "SOURCE-NOT-WHITELISTED",
         source := some insecureSource }] := by
  refine ⟨rfl, ?_, ?_⟩ <;> decide

/-- C3 amended: a WARNING `INSECURE-SOURCE` finding is reported for every
configured source with SSL verification disabled that passes the whitelist
check (no whitelist supplied, or its url whitelisted); a non-whitelisted
SSL-disabled source yields only the whitelist ERROR, never the warning. -/
theorem claim_C3_insecure_source_warning
    (proj : Project) (whitelisted_sources : List String) (source : Source) :
    source ∈ proj.pipfile.meta.sources.map Prod.snd →
    source.verify_ssl = false →
    ((whitelisted_sources = [] ∨ source.url ∈ whitelisted_sources) →
      ({ ftype := "WARNING", id := "INSECURE-SOURCE", source := some source,
         package_name := none : Finding } ∈
        Project._check_sources proj whitelisted_sources)) ∧
    (whitelisted_sources ≠ [] → source.url ∉ whitelisted_sources →
      ({ ftype := "WARNING", id := "INSECURE-SOURCE", source := some source,
         package_name := none : Finding } ∉
        Project._check_sources proj whitelisted_sources)) := by
  intro hmem hssl
  constructor
  · intro hpass
    simp only [Project._check_sources, List.mem_flatMap]
    refine ⟨source, hmem, ?_⟩
    have hcond : ¬ (whitelisted_sources ≠ [] ∧ source.url ∉ whitelisted_sources) := by
      rcases hpass with h | h
      · simp [h]
      · simp [h]
    rw [if_neg hcond, if_pos (by simp [hssl])]
    simp
  · intro hne hnotin hmem'
    simp only [Project._check_sources, List.mem_flatMap] at hmem'
    obtain ⟨s, _, hf⟩ := hmem'
    by_cases hc : whitelisted_sources ≠ [] ∧ s.url ∉ whitelisted_sources
    · rw [if_pos hc] at hf
      simp [Finding.mk.injEq] at hf
    · rw [if_neg hc] at hf
      by_cases hv : s.verify_ssl
      · rw [if_neg (by simp [hv])] at hf
        simp at hf
      · rw [if_pos (by simp [hv])] at hf
        simp only [List.mem_singleton] at hf
        have hs : source = s := by
          have := congrArg Finding.source hf
          simpa using this
        subst hs
        exact hc ⟨hne, hnotin⟩

/-- Witness for C3 amended: with no whitelist the SSL-disabled source yields
its warning; with a whitelist that excludes it, the warning is absent. -/
theorem claim_C3_insecure_source_warning_witness :
    ({ ftype := "WARNING", id := "INSECURE-SOURCE", source := some insecureSource,
       package_name := none : Finding } ∈ Project._check_sources projC3 []) ∧
    ({ ftype := "WARNING", id := "INSECURE-SOURCE", source := some insecureSource,
       package_name := none : Finding } ∉
      Project._check_sources projC3 ["https://allowed.example"]) :=
  ⟨(claim_C3_insecure_source_warning projC3 [] insecureSource
      (by decide) rfl).1 (Or.inl rfl),
   (claim_C3_insecure_source_warning projC3 ["https://allowed.example"] insecureSource
      (by decide) rfl).2 (by decide) (by decide)⟩


/-- C4 fails on the code: `to_requirements_index_conf` iterates
`self.sources.items()` and reads `.url` off the resulting `(name, Source)`
tuples, so for every metadata set with at least one source the call raises
`AttributeError` instead of rendering any `-i`/`--extra-index-url` line. -/
theorem claim_C4_requirements_index_conf_raises (meta : PipfileMeta) :
    meta.sources ≠ [] →
    meta.to_requirements_index_conf = .error .attributeError := by
  intro h
  match hs : meta.sources with
  | [] => exact absurd hs h
  | item :: rest =>
    rw [PipfileMeta.to_requirements_index_conf, hs]
    rfl

/-- Witness for C4: the failure at a concrete one-source metadata set. -/
theorem claim_C4_requirements_index_conf_raises_witness :
    PipfileMeta.to_requirements_index_conf
      { sources := [("pypi", Source.mk "pypi" "https://pypi.org/simple" true)] } =
      .error .attributeError :=
  claim_C4_requirements_index_conf_raises
    { sources := [("pypi", Source.mk "pypi" "https://pypi.org/simple" true)] }
    (by decide)

/-- C2 fails on the code: for plain requirements text (rejected by both the
TOML and the JSON structured parse, hence a `PipfileParseError` from
`from_string`), `parse` falls back to `from_requirements`, which `_PipfileBase`
defines as a bare `raise NotImplementedError` stub and `Pipfile` never
overrides — so the call raises `NotImplementedError` instead of returning a
manifest with the single package `requests==2.25.1`. -/
theorem claim_C2_parse_fallback_not_implemented
    (structuredParse : String → Option PipfileBase) :
    structuredParse "requests==2.25.1\n" = none →
    Pipfile.parse structuredParse "requests==2.25.1\n" =
      ParseOutcome.notImplementedError := by
  intro h
  simp [Pipfile.parse, Pipfile.from_string, h, Pipfile.from_requirements]

/-- Witness for C2 with a structured parse that rejects the input (as the
claim itself states the input is not valid structured manifest text). -/
theorem claim_C2_parse_fallback_not_implemented_witness :
    Pipfile.parse (fun _ => none) "requests==2.25.1\n" =
      ParseOutcome.notImplementedError :=
  claim_C2_parse_fallback_not_implemented (fun _ => none) rfl

/-- The existing `"==2.0"` Pipfile entry of the C1 scenario. -/
def pipfileC1 : PipfileBase :=
  { packages := { packages := [("x", { name := "x", version := "==2.0" })] },
    dev_packages := noDevPackages,
    meta := { sources := [] } }

/-- The locked `PackageVersion` excluded in the C1 scenario. -/
def excludedC1 : PackageVersion := { name := "x", version := "==1.0" }

/-- C1 fails on the code: excluding `x==1.0` against an existing `"==2.0"`
entry stores `f"{package_version.version},{to_exclude_package.version}"`, with
the *negated new* constraint first — `"!=1.0,==2.0"`, not the claimed
`"==2.0,!=1.0"`. -/
theorem claim_C1_counterexample :
    (Project.exclude_package pipfileC1 excludedC1).toOption.bind
      (fun pf => (pf.packages.get "x").map PackageVersion.version) =
      some "!=1.0,==2.0" ∧
    some "!=1.0,==2.0" ≠ some ("==2.0,!=1.0") := by
  constructor
  · rfl
  · decide

/-- C1 amended: for a locked `PackageVersion` excluded against an existing
entry of the same name, the stored entry's version is the negated new
constraint when the existing constraint was `"*"`, and otherwise the negated
new constraint followed by the existing constraint
(`"!=1.0"` resp. `"!=1.0,==2.0"` in the claim's instances: negation first,
existing constraint second). -/
theorem claim_C1_exclude_package_combines
    (pf : PipfileBase) (pv ex : PackageVersion) :
    pv.is_locked = true →
    (Project.sectionOf pf pv).get pv.name = some ex →
    Project.exclude_package pf pv =
      .ok (Project.setSection pf pv
        { Project.sectionOf pf pv with
          packages := dictInsert (Project.sectionOf pf pv).packages pv.name
            { pv with version :=
                if ex.version = "*" then
                  "!=" ++ String.mk (pv.version.data.drop 2)
                else
                  ("!=" ++ String.mk (pv.version.data.drop 2)) ++ "," ++ ex.version } }) := by
  intro hlock hget
  have hsw : pv.version.data.take 2 = ['=', '='] := by
    have h := hlock
    simp only [PackageVersion.is_locked, Bool.and_eq_true, decide_eq_true_eq] at h
    exact h.1
  rw [Project.exclude_package, if_neg (by simp [hlock])]
  rw [hget]
  simp only [PackageVersion.negate_version, if_pos hsw]
  by_cases hstar : ex.version = "*"
  · simp only [hstar]
    rfl
  · simp only [ne_eq, hstar, not_false_eq_true, if_true, if_false]
    rfl

/-- Witness for C1 amended, at the claim's own instances: excluding `x==1.0`
against an existing `"*"` entry yields `"!=1.0"`, and against an existing
`"==2.0"` entry yields `"!=1.0,==2.0"`. -/
theorem claim_C1_exclude_package_combines_witness :
    Project.exclude_package pipfileC1 excludedC1 =
      .ok { pipfileC1 with packages :=
        { packages := [("x", { excludedC1 with version := "!=1.0,==2.0" })] } } ∧
    Project.exclude_package
      { pipfileC1 with packages :=
          { packages := [("x", { name := "x", version := "*" })] } } excludedC1 =
      .ok { pipfileC1 with packages :=
        { packages := [("x", { excludedC1 with version := "!=1.0" })] } } := by
  constructor
  · rw [claim_C1_exclude_package_combines pipfileC1 excludedC1
      { name := "x", version := "==2.0" } (by decide) (by decide)]
    rfl
  · rw [claim_C1_exclude_package_combines
      { pipfileC1 with packages :=
          { packages := [("x", { name := "x", version := "*" })] } }
      excludedC1 { name := "x", version := "*" } (by decide) (by decide)]
    rfl

/-- Every finding of the `INVALID-ARTIFACT-HASH` block carries that id. -/
theorem checkScanBlock4_id (pv : PackageVersion) (report : IndexReport) :
    ∀ f ∈ checkScanBlock4 pv report, f.id = "INVALID-ARTIFACT-HASH" := by
  intro f hf
  simp only [checkScanBlock4, List.mem_flatMap] at hf
  obtain ⟨digest, _, hmem⟩ := hf
  by_cases hc : report.any
      (fun p => p.2.any (fun item => item.sha256 = stripHashTag digest))
  · rw [if_pos hc] at hmem
    simp at hmem
  · rw [if_neg hc] at hmem
    simp only [List.mem_singleton] at hmem
    subst hmem
    rfl

/-- The package of the C5 scenario: locked, no explicit index, no recorded
hashes. -/
def pvC5 : PackageVersion := { name := "p", version := "==1.0" }

/-- The C5 digest report: the first source reports `{h1, h2}`, the second only
`{h1}` — the two hash sets differ, with the first a strict superset. -/
def reportC5 : IndexReport :=
  [("https://a.example/simple", [{ sha256 := "h1" }, { sha256 := "h2" }]),
   ("https://b.example/simple", [{ sha256 := "h1" }])]

/-- C5 fails on the code: the two sources report different hash sets (the
first a strict superset of the second), yet no
`DIFFERENT-ARTIFACTS-ON-SOURCES` warning is produced, because the code only
compares the union of all reported hash sets (`set(chain(*hashes))`) with the
first source's set (`set(hashes[0])`). -/
theorem claim_C5_counterexample :
    (["h1", "h2"] : List String).toFinset ≠ (["h1"] : List String).toFinset ∧
    (Project._check_scan pvC5 reportC5).filter
      (fun f => f.id = "DIFFERENT-ARTIFACTS-ON-SOURCES") = [] := by
  constructor
  · decide
  · decide

/-- C5 amended: for a locked package without an explicit index whose digest
report covers more than one source, the `DIFFERENT-ARTIFACTS-ON-SOURCES`
WARNING is produced iff the union of all sources' reported hash sets differs
from the first source's hash set (some source reports an artifact hash the
first listed source does not); two sources with unequal hash sets where the
first is a superset produce no warning. -/
theorem claim_C5_different_artifacts_warning
    (pv : PackageVersion) (report : IndexReport) :
    pv.index = none → report.length > 1 →
    ((∃ f ∈ Project._check_scan pv report,
        f.id = "DIFFERENT-ARTIFACTS-ON-SOURCES") ↔
      (report.map (fun e => e.2.map DigestItem.sha256)).flatten.toFinset ≠
        ((report.map (fun e => e.2.map DigestItem.sha256)).headD []).toFinset) := by
  intro hidx hlen
  have hscan : Project._check_scan pv report =
      checkScanBlock1 pv report ++ checkScanBlock4 pv report := by
    simp [Project._check_scan, checkScanBlock2, checkScanBlock3, hidx]
  constructor
  · rintro ⟨f, hf, hid⟩
    rw [hscan, List.mem_append] at hf
    rcases hf with hf | hf
    · simp only [checkScanBlock1, hidx, hlen, and_self, if_true, true_and] at hf
      by_cases hc : (report.map (fun e => e.2.map DigestItem.sha256)).flatten.toFinset ≠
          ((report.map (fun e => e.2.map DigestItem.sha256)).headD []).toFinset
      · exact hc
      · rw [if_neg hc] at hf
        simp at hf
    · have := checkScanBlock4_id pv report f hf
      rw [hid] at this
      simp at this
  · intro hc
    refine ⟨{ ftype := "WARNING", id := "DIFFERENT-ARTIFACTS-ON-SOURCES",
              package_name := some pv.name }, ?_, rfl⟩
    rw [hscan, List.mem_append]
    left
    simp only [checkScanBlock1, hidx, hlen, and_self, if_true, true_and]
    rw [if_pos hc]
    simp

/-- Witness for C5 amended: a second source reporting a hash absent from the
first source yields the warning; the first-is-superset report of the
counterexample yields none. -/
theorem claim_C5_different_artifacts_warning_witness :
    (∃ f ∈ Project._check_scan pvC5
        [("https://a.example/simple", [{ sha256 := "h1" }]),
         ("https://b.example/simple", [{ sha256 := "h2" }])],
      f.id = "DIFFERENT-ARTIFACTS-ON-SOURCES") ∧
    ¬ (∃ f ∈ Project._check_scan pvC5 reportC5,
      f.id = "DIFFERENT-ARTIFACTS-ON-SOURCES") := by
  constructor
  · exact (claim_C5_different_artifacts_warning pvC5
      [("https://a.example/simple", [{ sha256 := "h1" }]),
       ("https://b.example/simple", [{ sha256 := "h2" }])] rfl (by decide)).mpr
      (by decide)
  · intro h
    exact absurd ((claim_C5_different_artifacts_warning pvC5 reportC5 rfl
      (by decide)).mp h) (by decide)

/-- C6: for a locked package with an explicitly assigned index whose digest
report has no entry (or an empty entry) under the assigned index's url, while
every recorded hash of the package appears under some other source's url, the
scan produces exactly the single ERROR finding `MISSING-PACKAGE` — in
particular exactly one ERROR finding with that id. -/
theorem claim_C6_missing_package
    (pv : PackageVersion) (idx : Source) (report : IndexReport) :
    pv.index = some idx →
    (dictGet report idx.url).getD [] = [] →
    (∀ h ∈ pv.hashes, ∃ p ∈ report, stripHashTag h ∈ p.2.map DigestItem.sha256) →
    Project._check_scan pv report =
      [{ ftype := "ERROR", id := "MISSING-PACKAGE", source := some idx,
         package_name := some pv.name }] := by
  intro hidx hmissing hfound
  have hb1 : checkScanBlock1 pv report = [] := by
    simp [checkScanBlock1, hidx]
  have hb2 : checkScanBlock2 pv report = [] := by
    match hlook : dictGet report idx.url with
    | none => simp [checkScanBlock2, hidx, hlook]
    | some entries =>
      rw [hlook, Option.getD_some] at hmissing
      simp [checkScanBlock2, hidx, hlook, hmissing]
  have hb3 : checkScanBlock3 pv report =
      [{ ftype := "ERROR", id := "MISSING-PACKAGE", source := some idx,
         package_name := some pv.name }] := by
    rw [checkScanBlock3, hidx]
    simp [hmissing]
  have hb4 : checkScanBlock4 pv report = [] := by
    rw [checkScanBlock4, List.flatMap_eq_nil_iff]
    intro digest hdig
    obtain ⟨p, hp, hsha⟩ := hfound digest hdig
    have hany : report.any
        (fun q => q.2.any (fun item => item.sha256 = stripHashTag digest)) = true := by
      rw [List.any_eq_true]
      refine ⟨p, hp, ?_⟩
      rw [List.any_eq_true]
      obtain ⟨item, hitem, heq⟩ := List.mem_map.mp hsha
      exact ⟨item, hitem, by simp [heq]⟩
    rw [if_pos hany]
  rw [Project._check_scan, hb1, hb2, hb3, hb4]
  rfl

/-- Witness for C6: a package assigned to source `a` whose report carries its
hash only under source `b` — the scan is exactly the `MISSING-PACKAGE` ERROR. -/
theorem claim_C6_missing_package_witness :
    Project._check_scan
      { name := "p", version := "==1.0",
        index := some (Source.mk "a" "https://a.example/simple" true),
        hashes := ["sha256:h1"] }
      [("https://a.example/simple", []),
       ("https://b.example/simple", [{ sha256 := "h1" }])] =
      [{ ftype := "ERROR", id := "MISSING-PACKAGE",
         source := some (Source.mk "a" "https://a.example/simple" true),
         package_name := some "p" }] :=
  claim_C6_missing_package
    { name := "p", version := "==1.0",
      index := some (Source.mk "a" "https://a.example/simple" true),
      hashes := ["sha256:h1"] }
    (Source.mk "a" "https://a.example/simple" true)
    [("https://a.example/simple", []),
     ("https://b.example/simple", [{ sha256 := "h1" }])]
    rfl (by decide) (by decide)

/-- The only error `processLockedPackage` can raise is `NotFound`. -/
theorem processLockedPackage_error_notFound (fetch : LatestFetcher)
    (sources : List Source) (pv : PackageVersion) (d : OutdatedResult)
    (e : PyError) :
    processLockedPackage fetch sources pv d = .error e → e = .notFound := by
  intro h
  rw [processLockedPackage] at h
  split at h
  · split at h
    · exact (Except.error.inj h).symm
    · split at h
      · cases h
      · cases h
  · dsimp only at h
    split at h
    · cases h
    · exact (Except.error.inj h).symm

/-- The only error `outdatedGo` can raise is `NotFound`. -/
theorem outdatedGo_error_notFound (fetch : LatestFetcher) (sources : List Source)
    (l : List PackageVersion) (d : OutdatedResult) (e : PyError) :
    outdatedGo fetch sources l d = .error e → e = .notFound := by
  induction l generalizing d with
  | nil =>
    intro h
    cases h
  | cons pv rest ih =>
    intro h
    rw [outdatedGo] at h
    cases hp : processLockedPackage fetch sources pv d with
    | error e' =>
      rw [hp] at h
      change Except.error e' = Except.error e at h
      rw [← Except.error.inj h]
      exact processLockedPackage_error_notFound fetch sources pv d e' hp
    | ok d' =>
      rw [hp] at h
      change outdatedGo fetch sources rest d' = Except.error e at h
      exact ih d' h

/-- Probing sources that all answer `NotFound` leaves the fold state of the
no-index branch unchanged. -/
theorem outdatedFold_all_none (fetch : LatestFetcher) (pv : PackageVersion)
    (ss : List Source) (st : Bool × OutdatedResult) :
    (∀ s ∈ ss, fetch s pv.name = none) →
    ss.foldl
      (fun (st : Bool × OutdatedResult) index =>
        match fetch index pv.name with
        | none => st
        | some latest =>
          (true,
           if pv.semantic_version ≠ latest then
             dictInsert st.2 pv.name (pv, latest)
           else st.2))
      st = st := by
  induction ss generalizing st with
  | nil => intro _; rfl
  | cons s rest ih =>
    intro hall
    rw [List.foldl_cons]
    have hs := hall s (List.mem_cons_self s rest)
    simp only [hs]
    exact ih st (fun s' hs' => hall s' (List.mem_cons_of_mem s hs'))

/-- A package without an explicit index for which every configured source
answers `NotFound` makes the per-package check raise `NotFound`. -/
theorem processLockedPackage_all_none (fetch : LatestFetcher)
    (sources : List Source) (pv : PackageVersion) (d : OutdatedResult) :
    pv.index = none →
    (∀ s ∈ sources, fetch s pv.name = none) →
    processLockedPackage fetch sources pv d = .error .notFound := by
  intro hidx hall
  simp only [processLockedPackage, hidx]
  rw [outdatedFold_all_none fetch pv sources (false, d) hall]
  rfl

/-- Processing one package only ever touches the result entry of its own
name. -/
theorem processLockedPackage_preserves (fetch : LatestFetcher)
    (sources : List Source) (pv : PackageVersion) (d d' : OutdatedResult)
    (n : String) :
    processLockedPackage fetch sources pv d = .ok d' → n ≠ pv.name →
    dictGet d' n = dictGet d n := by
  intro hok hne
  cases hpi : pv.index with
  | some idx =>
    simp only [processLockedPackage, hpi] at hok
    cases hf : fetch idx pv.name with
    | none =>
      simp only [hf] at hok
      exact Except.noConfusion hok
    | some latest =>
      simp only [hf] at hok
      by_cases hv : pv.semantic_version ≠ latest
      · rw [if_pos hv] at hok
        rw [← Except.ok.inj hok, dictGet_dictInsert, if_neg hne]
      · rw [if_neg hv] at hok
        rw [← Except.ok.inj hok]
  | none =>
    simp only [processLockedPackage, hpi] at hok
    have hfold : ∀ (ss : List Source) (st : Bool × OutdatedResult),
        dictGet (ss.foldl
          (fun (st : Bool × OutdatedResult) index =>
            match fetch index pv.name with
            | none => st
            | some latest =>
              (true,
               if pv.semantic_version ≠ latest then
                 dictInsert st.2 pv.name (pv, latest)
               else st.2))
          st).2 n = dictGet st.2 n := by
      intro ss
      induction ss with
      | nil => intro st; rfl
      | cons s rest ih =>
        intro st
        rw [List.foldl_cons, ih]
        cases hf : fetch s pv.name with
        | none => simp only [hf]
        | some latest =>
          simp [hf, dictGet_dictInsert, hne]
          split
          · rfl
          · rw [dictGet_dictInsert, if_neg hne]
    split at hok
    · rw [← Except.ok.inj hok]
      exact hfold sources (false, d)
    · cases hok

/-- Unfolding `outdatedGo` over a successfully processed head package. -/
theorem outdatedGo_cons_ok (fetch : LatestFetcher) (sources : List Source)
    (pv : PackageVersion) (rest : List PackageVersion) (d d' : OutdatedResult) :
    processLockedPackage fetch sources pv d = .ok d' →
    outdatedGo fetch sources (pv :: rest) d = outdatedGo fetch sources rest d' := by
  intro hp
  rw [outdatedGo, hp]
  rfl

/-- Unfolding `outdatedGo` over a head package that raises. -/
theorem outdatedGo_cons_error (fetch : LatestFetcher) (sources : List Source)
    (pv : PackageVersion) (rest : List PackageVersion) (d : OutdatedResult)
    (e : PyError) :
    processLockedPackage fetch sources pv d = .error e →
    outdatedGo fetch sources (pv :: rest) d = .error e := by
  intro hp
  rw [outdatedGo, hp]
  rfl

/-- The per-package check with an explicit index and an answering fetch. -/
theorem processLockedPackage_index (fetch : LatestFetcher) (sources : List Source)
    (pv : PackageVersion) (d : OutdatedResult) (idx : Source) (latest : String) :
    pv.index = some idx → fetch idx pv.name = some latest →
    processLockedPackage fetch sources pv d =
      (if pv.semantic_version ≠ latest then
        .ok (dictInsert d pv.name (pv, latest))
      else .ok d) := by
  intro hpi hf
  simp only [processLockedPackage, hpi, hf]

/-- A package whose index raises `NotFound` propagates the error
(`project.py` line 231 has no `try`). -/
theorem processLockedPackage_index_notFound (fetch : LatestFetcher)
    (sources : List Source) (pv : PackageVersion) (d : OutdatedResult)
    (idx : Source) :
    pv.index = some idx → fetch idx pv.name = none →
    processLockedPackage fetch sources pv d = .error .notFound := by
  intro hpi hf
  simp only [processLockedPackage, hpi, hf]

/-- A package contained in a run ending in `NotFound` for every configured
source fails the whole traversal with `NotFound`. -/
theorem outdatedGo_mem_all_none (fetch : LatestFetcher) (sources : List Source)
    (l : List PackageVersion) (d : OutdatedResult) (pv : PackageVersion) :
    pv ∈ l → pv.index = none →
    (∀ s ∈ sources, fetch s pv.name = none) →
    outdatedGo fetch sources l d = .error .notFound := by
  induction l generalizing d with
  | nil =>
    intro hmem
    cases hmem
  | cons head rest ih =>
    intro hmem hidx hall
    rcases List.mem_cons.mp hmem with heq | hmem'
    · subst heq
      exact outdatedGo_cons_error fetch sources pv rest d .notFound
        (processLockedPackage_all_none fetch sources pv d hidx hall)
    · cases hp : processLockedPackage fetch sources head d with
      | error e =>
        rw [outdatedGo_cons_error fetch sources head rest d e hp,
          processLockedPackage_error_notFound fetch sources head d e hp]
      | ok d' =>
        rw [outdatedGo_cons_ok fetch sources head rest d d' hp]
        exact ih d' hmem' hidx hall

/-- A successful traversal leaves result entries of names outside the
traversed packages unchanged. -/
theorem outdatedGo_preserves (fetch : LatestFetcher) (sources : List Source)
    (l : List PackageVersion) (d d' : OutdatedResult) (n : String) :
    outdatedGo fetch sources l d = .ok d' →
    n ∉ l.map PackageVersion.name →
    dictGet d' n = dictGet d n := by
  induction l generalizing d with
  | nil =>
    intro hok _
    exact (Except.ok.inj hok) ▸ rfl
  | cons head rest ih =>
    intro hok hn
    have hn₁ : n ≠ head.name := by
      intro h
      exact hn (h ▸ List.mem_cons_self _ _)
    have hn₂ : n ∉ rest.map PackageVersion.name := by
      intro h
      exact hn (List.mem_cons_of_mem _ h)
    cases hp : processLockedPackage fetch sources head d with
    | error e =>
      rw [outdatedGo_cons_error fetch sources head rest d e hp] at hok
      exact Except.noConfusion hok
    | ok d₁ =>
      rw [outdatedGo_cons_ok fetch sources head rest d d₁ hp] at hok
      rw [ih d₁ hok hn₂]
      exact processLockedPackage_preserves fetch sources head d d₁ n hp hn₁

/-- A successful traversal of an appended list factors through an
intermediate result. -/
theorem outdatedGo_append_ok (fetch : LatestFetcher) (sources : List Source)
    (l₁ l₂ : List PackageVersion) (d r : OutdatedResult) :
    outdatedGo fetch sources (l₁ ++ l₂) d = .ok r →
    ∃ dm, outdatedGo fetch sources l₁ d = .ok dm ∧
      outdatedGo fetch sources l₂ dm = .ok r := by
  induction l₁ generalizing d with
  | nil =>
    intro h
    exact ⟨d, rfl, h⟩
  | cons head rest ih =>
    intro h
    rw [List.cons_append] at h
    cases hp : processLockedPackage fetch sources head d with
    | error e =>
      rw [outdatedGo_cons_error fetch sources head (rest ++ l₂) d e hp] at h
      exact Except.noConfusion h
    | ok d₁ =>
      rw [outdatedGo_cons_ok fetch sources head (rest ++ l₂) d d₁ hp] at h
      obtain ⟨dm, hdm, hrest⟩ := ih d₁ h
      exact ⟨dm, by rw [outdatedGo_cons_ok fetch sources head rest d d₁ hp]; exact hdm,
        hrest⟩

/-- C7: over a locked project, `get_outdated_package_versions` (i) fails with
`NotFound` whenever some locked package without an explicit index gets a
`NotFound` answer from every configured source; (ii) maps a package with an
explicit index whose pinned version differs from the index's reported latest
(e.g. pinned `==1.0`, latest `1.2`) to its `(package_version, latest)` pair in
a successful result; and (iii) leaves a package whose pinned version equals
the reported latest out of the result. -/
theorem claim_C7_get_outdated_package_versions
    (fetch : LatestFetcher) (proj : Project) (lock : PipfileBase) (devel : Bool) :
    proj.pipfile_lock = some lock →
    ((∃ pv ∈ lockedDependencies lock devel, pv.index = none ∧
        ∀ s ∈ lock.meta.sources.map Prod.snd, fetch s pv.name = none) →
      Project.get_outdated_package_versions fetch proj devel = .error .notFound) ∧
    (∀ result pv idx latest,
      Project.get_outdated_package_versions fetch proj devel = .ok result →
      ((lockedDependencies lock devel).map PackageVersion.name).Nodup →
      pv ∈ lockedDependencies lock devel →
      pv.index = some idx →
      fetch idx pv.name = some latest →
      pv.semantic_version ≠ latest →
      dictGet result pv.name = some (pv, latest)) ∧
    (∀ result pv idx latest,
      Project.get_outdated_package_versions fetch proj devel = .ok result →
      ((lockedDependencies lock devel).map PackageVersion.name).Nodup →
      pv ∈ lockedDependencies lock devel →
      pv.index = some idx →
      fetch idx pv.name = some latest →
      pv.semantic_version = latest →
      dictGet result pv.name = none) := by
  intro hlock
  have hgo : Project.get_outdated_package_versions fetch proj devel =
      outdatedGo fetch (lock.meta.sources.map Prod.snd)
        (lockedDependencies lock devel) [] := by
    rw [Project.get_outdated_package_versions, hlock]
  refine ⟨?_, ?_, ?_⟩
  · rintro ⟨pv, hmem, hidx, hall⟩
    rw [hgo]
    exact outdatedGo_mem_all_none fetch (lock.meta.sources.map Prod.snd)
      (lockedDependencies lock devel) [] pv hmem hidx hall
  · intro result pv idx latest hok hnd hmem hidx hf hv
    rw [hgo] at hok
    obtain ⟨l₁, l₂, hsplit⟩ := List.append_of_mem hmem
    rw [hsplit] at hok hnd
    rw [List.map_append] at hnd
    have hnotl₂ : pv.name ∉ l₂.map PackageVersion.name := by
      have h := List.Nodup.of_append_right hnd
      rw [List.map_cons, List.nodup_cons] at h
      exact h.1
    obtain ⟨dm, _, hrest⟩ := outdatedGo_append_ok fetch _ l₁ (pv :: l₂) [] result hok
    have hp : processLockedPackage fetch (lock.meta.sources.map Prod.snd) pv dm =
        .ok (dictInsert dm pv.name (pv, latest)) := by
      rw [processLockedPackage_index fetch _ pv dm idx latest hidx hf, if_pos hv]
    rw [outdatedGo_cons_ok fetch _ pv l₂ dm _ hp] at hrest
    rw [outdatedGo_preserves fetch _ l₂ _ result pv.name hrest hnotl₂,
      dictGet_dictInsert, if_pos rfl]
  · intro result pv idx latest hok hnd hmem hidx hf hv
    rw [hgo] at hok
    obtain ⟨l₁, l₂, hsplit⟩ := List.append_of_mem hmem
    rw [hsplit] at hok hnd
    rw [List.map_append] at hnd
    have hnotl₂ : pv.name ∉ l₂.map PackageVersion.name := by
      have h := List.Nodup.of_append_right hnd
      rw [List.map_cons, List.nodup_cons] at h
      exact h.1
    have hnotl₁ : pv.name ∉ l₁.map PackageVersion.name := by
      intro hin
      exact List.disjoint_of_nodup_append hnd hin
        (by rw [List.map_cons]; exact List.mem_cons_self _ _)
    obtain ⟨dm, hfirst, hrest⟩ := outdatedGo_append_ok fetch _ l₁ (pv :: l₂) [] result hok
    have hp : processLockedPackage fetch (lock.meta.sources.map Prod.snd) pv dm =
        .ok dm := by
      rw [processLockedPackage_index fetch _ pv dm idx latest hidx hf,
        if_neg (not_not_intro hv)]
    rw [outdatedGo_cons_ok fetch _ pv l₂ dm dm hp] at hrest
    rw [outdatedGo_preserves fetch _ l₂ dm result pv.name hrest hnotl₂,
      outdatedGo_preserves fetch _ l₁ [] dm pv.name hfirst hnotl₁]
    rfl

/-- The configured source of the C7 witness scenarios. -/
def srcW : Source := Source.mk "pypi" "https://pypi.org/simple" true

/-- A locked package without an explicit index. -/
def pvLonely : PackageVersion := { name := "lonely", version := "==1.0" }

/-- A locked package pinned at `==1.0` with an explicit index. -/
def pvOld : PackageVersion :=
  { name := "old", version := "==1.0", index := some srcW }

/-- An up-to-date locked package with an explicit index. -/
def pvCur : PackageVersion :=
  { name := "cur", version := "==1.0", index := some srcW }

/-- A one-package locked manifest over `srcW`. -/
def lockOfW (pv : PackageVersion) : PipfileBase :=
  { packages := { packages := [(pv.name, pv)] },
    dev_packages := noDevPackages,
    meta := { sources := [("pypi", srcW)] } }

/-- A locked project holding the given one-package lock. -/
def projOfW (pv : PackageVersion) : Project :=
  { pipfile := pipfileOfSources [("pypi", srcW)],
    pipfile_lock := some (lockOfW pv) }

/-- Witness for C7: a no-index package unanswered by every source fails the
whole call with `NotFound`; an outdated `==1.0`/latest-`1.2` package is mapped
to its `(package, latest)` pair in the successful result; an up-to-date
package is absent from the successful result. -/
theorem claim_C7_get_outdated_package_versions_witness :
    Project.get_outdated_package_versions (fun _ _ => none) (projOfW pvLonely)
      true = .error .notFound ∧
    dictGet [("old", (pvOld, "1.2"))] "old" = some (pvOld, "1.2") ∧
    dictGet ([] : OutdatedResult) "cur" = none :=
  ⟨(claim_C7_get_outdated_package_versions (fun _ _ => none) (projOfW pvLonely)
      (lockOfW pvLonely) true rfl).1
      ⟨pvLonely, by decide, rfl, fun s _ => rfl⟩,
   (claim_C7_get_outdated_package_versions
      (fun _ n => if n = "old" then some "1.2" else none) (projOfW pvOld)
      (lockOfW pvOld) true rfl).2.1
      [("old", (pvOld, "1.2"))] pvOld srcW "1.2" rfl (by decide) (by decide)
      rfl rfl (by decide),
   (claim_C7_get_outdated_package_versions (fun _ _ => some "1.0") (projOfW pvCur)
      (lockOfW pvCur) true rfl).2.2
      [] pvCur srcW "1.0" rfl (by decide) (by decide) rfl rfl (by decide)⟩

/-- Two sources of the same name that disagree on url or on SSL verification —
exactly what `_index_check` rejects. -/
def conflictsWith (s pv_index : Source) : Prop :=
  s.name = pv_index.name ∧ (s.url ≠ pv_index.url ∨ s.verify_ssl ≠ pv_index.verify_ssl)

instance (s pv_index : Source) : Decidable (conflictsWith s pv_index) := by
  rw [conflictsWith]
  infer_instance

/-- `_index_check` raises exactly on a conflicting registered source. -/
theorem indexCheck_eq (pv_index s : Source) :
    indexCheck pv_index s =
      if conflictsWith s pv_index then .error .internalError else .ok () := by
  by_cases hn : s.name = pv_index.name
  · by_cases hu : s.url = pv_index.url
    · by_cases hv : s.verify_ssl = pv_index.verify_ssl
      · have hs : s = pv_index := by
          cases s
          cases pv_index
          simp_all
        subst hs
        rw [indexCheck, if_pos rfl,
          if_neg (by simp [conflictsWith])]
      · have hne : s ≠ pv_index := fun h => hv (h ▸ rfl)
        rw [indexCheck, if_neg hne, if_neg (fun h => h.2 hu), if_pos ⟨hn, hv⟩,
          if_pos ⟨hn, Or.inr hv⟩]
    · have hne : s ≠ pv_index := fun h => hu (h ▸ rfl)
      rw [indexCheck, if_neg hne, if_pos ⟨hn, hu⟩, if_pos ⟨hn, Or.inl hu⟩]
  · have hne : s ≠ pv_index := fun h => hn (h ▸ rfl)
    rw [indexCheck, if_neg hne, if_neg (fun h => hn h.1), if_neg (fun h => hn h.1),
      if_neg (fun h => hn h.1)]

/-- The only error `_index_check` can raise is `InternalError`. -/
theorem indexCheck_error (pv_index s : Source) (e : PyError) :
    indexCheck pv_index s = .error e → e = .internalError := by
  rw [indexCheck_eq]
  by_cases hc : conflictsWith s pv_index
  · rw [if_pos hc]
    intro h
    exact (Except.error.inj h).symm
  · rw [if_neg hc]
    intro h
    exact Except.noConfusion h

/-- The only error the registered-source sweep can raise is `InternalError`. -/
theorem indexCheckAll_error (pv_index : Source) (ss : List Source) (e : PyError) :
    indexCheckAll pv_index ss = .error e → e = .internalError := by
  induction ss with
  | nil =>
    intro h
    exact Except.noConfusion h
  | cons s rest ih =>
    rw [indexCheckAll]
    cases hc : indexCheck pv_index s with
    | error e' =>
      intro h
      change Except.error e' = Except.error e at h
      rw [← Except.error.inj h]
      exact indexCheck_error pv_index s e' hc
    | ok u =>
      intro h
      change indexCheckAll pv_index rest = Except.error e at h
      exact ih h

/-- The registered-source sweep succeeds when no registered source
conflicts. -/
theorem indexCheckAll_ok (pv_index : Source) (ss : List Source) :
    (∀ s ∈ ss, ¬ conflictsWith s pv_index) →
    indexCheckAll pv_index ss = .ok () := by
  induction ss with
  | nil => intro _; rfl
  | cons s rest ih =>
    intro hall
    rw [indexCheckAll, indexCheck_eq,
      if_neg (hall s (List.mem_cons_self s rest))]
    exact ih (fun s' hs' => hall s' (List.mem_cons_of_mem s hs'))

/-- A successful lookup returns a stored binding. -/
theorem dictGet_mem {α : Type} (d : List (String × α)) (k : String) (v : α) :
    dictGet d k = some v → (k, v) ∈ d := by
  induction d with
  | nil =>
    intro h
    exact Option.noConfusion h
  | cons p rest ih =>
    obtain ⟨k₀, v₀⟩ := p
    rw [dictGet]
    by_cases hk : k₀ = k
    · subst hk
      rw [if_pos rfl]
      intro h
      cases h
      exact List.mem_cons_self _ _
    · rw [if_neg hk]
      intro h
      exact List.mem_cons_of_mem _ (ih h)

/-- Under unique keys, every stored binding is found by lookup. -/
theorem dictGet_of_mem_nodup {α : Type} (d : List (String × α)) (k : String) (v : α) :
    (d.map Prod.fst).Nodup → (k, v) ∈ d → dictGet d k = some v := by
  induction d with
  | nil =>
    intro _ h
    cases h
  | cons p rest ih =>
    obtain ⟨k₀, v₀⟩ := p
    intro hnd hmem
    rw [List.map_cons, List.nodup_cons] at hnd
    rcases List.mem_cons.mp hmem with heq | hmem'
    · cases heq
      rw [dictGet, if_pos rfl]
    · have hk : k₀ ≠ k := by
        intro h
        subst h
        exact hnd.1 (List.mem_map.mpr ⟨(k₀, v), hmem', rfl⟩)
      rw [dictGet, if_neg hk]
      exact ih hnd.2 hmem'

/-- A binding of `dictInsert` is an old binding or the inserted one. -/
theorem mem_dictInsert {α : Type} (d : List (String × α)) (k : String) (v : α)
    (p : String × α) :
    p ∈ dictInsert d k v → p ∈ d ∨ p = (k, v) := by
  induction d with
  | nil =>
    intro h
    rcases List.mem_singleton.mp h with h'
    exact Or.inr h'
  | cons q rest ih =>
    obtain ⟨k₀, v₀⟩ := q
    rw [dictInsert]
    by_cases hk : k₀ = k
    · rw [if_pos hk]
      intro h
      rcases List.mem_cons.mp h with heq | hmem
      · exact Or.inr heq
      · exact Or.inl (List.mem_cons_of_mem _ hmem)
    · rw [if_neg hk]
      intro h
      rcases List.mem_cons.mp h with heq | hmem
      · exact Or.inl (heq ▸ List.mem_cons_self _ _)
      · rcases ih hmem with h' | h'
        · exact Or.inl (List.mem_cons_of_mem _ h')
        · exact Or.inr h'

/-- A package without an index is skipped by the sanitize loop. -/
theorem sanitizeGo_cons_none (pv : PackageVersion) (rest : List PackageVersion)
    (sources : List (String × Source)) :
    pv.index = none →
    sanitizeGo (pv :: rest) sources = sanitizeGo rest sources := by
  intro h
  simp only [sanitizeGo, h]

/-- Sanitizing a package whose index name is registered and whose check
fails raises that error. -/
theorem sanitizeGo_cons_reg_error (pv : PackageVersion)
    (rest : List PackageVersion) (sources : List (String × Source))
    (idx s : Source) (e : PyError) :
    pv.index = some idx → dictGet sources idx.name = some s →
    indexCheck idx s = .error e →
    sanitizeGo (pv :: rest) sources = .error e := by
  intro h1 h2 h3
  simp only [sanitizeGo, h1, h2, h3]
  rfl

/-- Sanitizing a package whose index name is registered and whose check passes
continues with the sources untouched. -/
theorem sanitizeGo_cons_reg_ok (pv : PackageVersion)
    (rest : List PackageVersion) (sources : List (String × Source))
    (idx s : Source) :
    pv.index = some idx → dictGet sources idx.name = some s →
    indexCheck idx s = .ok () →
    sanitizeGo (pv :: rest) sources = sanitizeGo rest sources := by
  intro h1 h2 h3
  simp only [sanitizeGo, h1, h2, h3]
  rfl

/-- Sanitizing a package with an unregistered index name whose sweep fails
raises that error. -/
theorem sanitizeGo_cons_new_error (pv : PackageVersion)
    (rest : List PackageVersion) (sources : List (String × Source))
    (idx : Source) (e : PyError) :
    pv.index = some idx → dictGet sources idx.name = none →
    indexCheckAll idx (sources.map Prod.snd) = .error e →
    sanitizeGo (pv :: rest) sources = .error e := by
  intro h1 h2 h3
  simp only [sanitizeGo, h1, h2, h3]
  rfl

/-- Sanitizing a package with an unregistered index name whose sweep passes
inserts the index and continues. -/
theorem sanitizeGo_cons_new_ok (pv : PackageVersion)
    (rest : List PackageVersion) (sources : List (String × Source))
    (idx : Source) :
    pv.index = some idx → dictGet sources idx.name = none →
    indexCheckAll idx (sources.map Prod.snd) = .ok () →
    sanitizeGo (pv :: rest) sources =
      sanitizeGo rest (dictInsert sources idx.name idx) := by
  intro h1 h2 h3
  simp only [sanitizeGo, h1, h2, h3]
  rfl

/-- A package index conflicting with a looked-up registered source of its name
makes the sanitize loop raise `InternalError`, wherever the package sits. -/
theorem sanitizeGo_conflict (l : List PackageVersion)
    (sources : List (String × Source)) (s₀ idx₀ : Source) (pv₀ : PackageVersion) :
    dictGet sources s₀.name = some s₀ →
    pv₀ ∈ l → pv₀.index = some idx₀ → conflictsWith s₀ idx₀ →
    sanitizeGo l sources = .error .internalError := by
  induction l generalizing sources with
  | nil =>
    intro _ hmem
    cases hmem
  | cons head rest ih =>
    intro hs₀ hmem hidx₀ hconf
    rcases List.mem_cons.mp hmem with heq | hmem'
    · subst heq
      have hname : dictGet sources idx₀.name = some s₀ := by
        rw [← hconf.1]
        exact hs₀
      have hchk : indexCheck idx₀ s₀ = .error .internalError := by
        rw [indexCheck_eq, if_pos hconf]
      exact sanitizeGo_cons_reg_error pv₀ rest sources idx₀ s₀ .internalError
        hidx₀ hname hchk
    · cases hh : head.index with
      | none =>
        rw [sanitizeGo_cons_none head rest sources hh]
        exact ih sources hs₀ hmem' hidx₀ hconf
      | some idxh =>
        cases hd : dictGet sources idxh.name with
        | some s =>
          cases hc : indexCheck idxh s with
          | error e =>
            rw [sanitizeGo_cons_reg_error head rest sources idxh s e hh hd hc,
              indexCheck_error idxh s e hc]
          | ok u =>
            cases u
            rw [sanitizeGo_cons_reg_ok head rest sources idxh s hh hd hc]
            exact ih sources hs₀ hmem' hidx₀ hconf
        | none =>
          cases hca : indexCheckAll idxh (sources.map Prod.snd) with
          | error e =>
            rw [sanitizeGo_cons_new_error head rest sources idxh e hh hd hca,
              indexCheckAll_error idxh _ e hca]
          | ok u =>
            cases u
            rw [sanitizeGo_cons_new_ok head rest sources idxh hh hd hca]
            refine ih (dictInsert sources idxh.name idxh) ?_ hmem' hidx₀ hconf
            rw [dictGet_dictInsert]
            have hne : s₀.name ≠ idxh.name := by
              intro h
              rw [← h] at hd
              rw [hs₀] at hd
              exact Option.noConfusion hd
            rw [if_neg hne]
            exact hs₀

/-- Under a conflict-free pool of sources covering both the registered sources
and every package index, the sanitize loop succeeds, keeps existing bindings,
and registers every package index under its name. -/
theorem sanitizeGo_no_conflict (l : List PackageVersion)
    (sources : List (String × Source)) (pool : List Source) :
    (∀ p ∈ sources, p.2.name = p.1) →
    (∀ s ∈ sources.map Prod.snd, s ∈ pool) →
    (∀ pv ∈ l, ∀ idx, pv.index = some idx → idx ∈ pool) →
    (∀ a ∈ pool, ∀ b ∈ pool, a.name = b.name → a = b) →
    ∃ sources', sanitizeGo l sources = .ok sources' ∧
      (∀ k v, dictGet sources k = some v → dictGet sources' k = some v) ∧
      (∀ pv ∈ l, ∀ idx, pv.index = some idx →
        dictGet sources' idx.name = some idx) := by
  induction l generalizing sources with
  | nil =>
    intro _ _ _ _
    exact ⟨sources, rfl, fun _ _ h => h, fun pv hpv => absurd hpv (List.not_mem_nil pv)⟩
  | cons head rest ih =>
    intro hkeys hsub hidxpool hcompat
    have hidxrest : ∀ pv ∈ rest, ∀ idx, pv.index = some idx → idx ∈ pool :=
      fun pv hpv => hidxpool pv (List.mem_cons_of_mem head hpv)
    cases hh : head.index with
    | none =>
      rw [sanitizeGo_cons_none head rest sources hh]
      obtain ⟨s', h1, h2, h3⟩ := ih sources hkeys hsub hidxrest hcompat
      refine ⟨s', h1, h2, fun pv hpv idx hi => ?_⟩
      rcases List.mem_cons.mp hpv with heq | hpv'
      · subst heq
        rw [hh] at hi
        exact Option.noConfusion hi
      · exact h3 pv hpv' idx hi
    | some idx =>
      have hidxp : idx ∈ pool := hidxpool head (List.mem_cons_self head rest) idx hh
      cases hd : dictGet sources idx.name with
      | some s =>
        have hsmem : (idx.name, s) ∈ sources := dictGet_mem sources idx.name s hd
        have hsval : s ∈ sources.map Prod.snd :=
          List.mem_map.mpr ⟨(idx.name, s), hsmem, rfl⟩
        have hsname : s.name = idx.name := hkeys (idx.name, s) hsmem
        have hse : s = idx := hcompat s (hsub s hsval) idx hidxp hsname
        have hchk : indexCheck idx s = .ok () := by
          subst hse
          rw [indexCheck_eq, if_neg (by simp [conflictsWith])]
        rw [sanitizeGo_cons_reg_ok head rest sources idx s hh hd hchk]
        obtain ⟨s', h1, h2, h3⟩ := ih sources hkeys hsub hidxrest hcompat
        refine ⟨s', h1, h2, fun pv hpv idx' hi => ?_⟩
        rcases List.mem_cons.mp hpv with heq | hpv'
        · subst heq
          rw [hh] at hi
          rw [← Option.some.inj hi]
          have := h2 idx.name s hd
          rw [hse] at this
          exact this
        · exact h3 pv hpv' idx' hi
      | none =>
        have hsweep : indexCheckAll idx (sources.map Prod.snd) = .ok () := by
          refine indexCheckAll_ok idx _ (fun s hs hc => ?_)
          have hse : s = idx := hcompat s (hsub s hs) idx hidxp hc.1
          subst hse
          rcases hc.2 with h | h
          · exact h rfl
          · exact h rfl
        rw [sanitizeGo_cons_new_ok head rest sources idx hh hd hsweep]
        have hkeys₂ : ∀ p ∈ dictInsert sources idx.name idx, p.2.name = p.1 := by
          intro p hp
          rcases mem_dictInsert sources idx.name idx p hp with hp' | hp'
          · exact hkeys p hp'
          · rw [hp']
        have hsub₂ : ∀ s ∈ (dictInsert sources idx.name idx).map Prod.snd,
            s ∈ pool := by
          intro s hs
          obtain ⟨p, hp, hps⟩ := List.mem_map.mp hs
          rcases mem_dictInsert sources idx.name idx p hp with hp' | hp'
          · exact hps ▸ hsub p.2 (List.mem_map.mpr ⟨p, hp', rfl⟩)
          · rw [← hps, hp']
            exact hidxp
        obtain ⟨s', h1, h2, h3⟩ :=
          ih (dictInsert sources idx.name idx) hkeys₂ hsub₂ hidxrest hcompat
        refine ⟨s', h1, ?_, ?_⟩
        · intro k v hget
          refine h2 k v ?_
          rw [dictGet_dictInsert]
          have hne : k ≠ idx.name := by
            intro h
            rw [h, hd] at hget
            exact Option.noConfusion hget
          rw [if_neg hne]
          exact hget
        · intro pv hpv idx' hi
          rcases List.mem_cons.mp hpv with heq | hpv'
          · subst heq
            rw [hh] at hi
            rw [← Option.some.inj hi]
            refine h2 idx.name idx ?_
            rw [dictGet_dictInsert, if_pos rfl]
          · exact h3 pv hpv' idx' hi

/-- The pool of sources `sanitize_source_indexes` reconciles: the registered
metadata sources together with every index referenced by a package of either
collection. -/
def sourcePool (pb : PipfileBase) : List Source :=
  pb.meta.sources.map Prod.snd ++
    (pb.packages.values ++ pb.dev_packages.values).filterMap PackageVersion.index

/-- C8: `sanitize_source_indexes` raises `InternalError` whenever some
`PackageVersion` of either collection references a `Source` whose name equals
that of a registered metadata source but whose url or `verify_ssl` differs;
and when no two sources of the reconciled pool share a name with different
url/`verify_ssl`, it terminates normally with every package-referenced
`Source` registered in `meta.sources` under its name. -/
theorem claim_C8_sanitize_source_indexes (pb : PipfileBase) :
    ((pb.meta.sources.map Prod.fst).Nodup →
     (∀ p ∈ pb.meta.sources, p.2.name = p.1) →
     (∃ pv ∈ pb.packages.values ++ pb.dev_packages.values, ∃ idx,
        pv.index = some idx ∧ ∃ p ∈ pb.meta.sources, conflictsWith p.2 idx) →
      pb.sanitize_source_indexes = .error .internalError) ∧
    ((∀ p ∈ pb.meta.sources, p.2.name = p.1) →
     (∀ a ∈ sourcePool pb, ∀ b ∈ sourcePool pb, a.name = b.name → a = b) →
     ∃ pb', pb.sanitize_source_indexes = .ok pb' ∧
       ∀ pv ∈ pb.packages.values ++ pb.dev_packages.values, ∀ idx,
         pv.index = some idx → dictGet pb'.meta.sources idx.name = some idx) := by
  constructor
  · rintro hnd hkeys ⟨pv₀, hmem, idx₀, hidx₀, ⟨n₀, s₀⟩, hps, hconf⟩
    have hn₀ : s₀.name = n₀ := hkeys (n₀, s₀) hps
    have hs₀ : dictGet pb.meta.sources s₀.name = some s₀ := by
      refine dictGet_of_mem_nodup pb.meta.sources s₀.name s₀ hnd ?_
      rw [hn₀]
      exact hps
    have hgo := sanitizeGo_conflict
      (pb.packages.values ++ pb.dev_packages.values) pb.meta.sources s₀ idx₀ pv₀
      hs₀ hmem hidx₀ hconf
    rw [PipfileBase.sanitize_source_indexes, hgo]
    rfl
  · intro hkeys hcompat
    obtain ⟨sources', h1, _, h3⟩ := sanitizeGo_no_conflict
      (pb.packages.values ++ pb.dev_packages.values) pb.meta.sources
      (sourcePool pb) hkeys
      (fun s hs => List.mem_append_left _ hs)
      (fun pv hpv idx hi => List.mem_append_right _
        (List.mem_filterMap.mpr ⟨pv, hpv, hi⟩))
      hcompat
    refine ⟨{ pb with meta := { pb.meta with sources := sources' } }, ?_, h3⟩
    rw [PipfileBase.sanitize_source_indexes, h1]
    rfl

/-- The registered `"pypi"` source of the C8 witness scenarios. -/
def srcPypi : Source := Source.mk "pypi" "https://pypi.org/simple" true

/-- A `"pypi"`-named source with a different url (conflicting). -/
def srcPypiOther : Source := Source.mk "pypi" "https://other.example" true

/-- A fresh `"extra"` source not registered in the metadata. -/
def srcExtra : Source := Source.mk "extra" "https://extra.example" true

/-- The package referencing the conflicting `"pypi"` source. -/
def pvConflict : PackageVersion :=
  { name := "p", version := "==1.0", index := some srcPypiOther }

/-- The package referencing the fresh `"extra"` source. -/
def pvFresh : PackageVersion :=
  { name := "p", version := "==1.0", index := some srcExtra }

/-- The conflicting scenario of the C8 witness. -/
def pbConflict : PipfileBase :=
  { packages := { packages := [("p", pvConflict)] },
    dev_packages := noDevPackages,
    meta := { sources := [("pypi", srcPypi)] } }

/-- The conflict-free scenario of the C8 witness. -/
def pbFresh : PipfileBase :=
  { packages := { packages := [("p", pvFresh)] },
    dev_packages := noDevPackages,
    meta := { sources := [("pypi", srcPypi)] } }

/-- Witness for C8: the same-name/different-url conflict raises
`InternalError`; the conflict-free project succeeds and registers the missing
`"extra"` source under its name. -/
theorem claim_C8_sanitize_source_indexes_witness :
    pbConflict.sanitize_source_indexes = .error .internalError ∧
    pbFresh.sanitize_source_indexes =
      .ok { pbFresh with meta :=
        { sources := [("pypi", srcPypi), ("extra", srcExtra)] } } ∧
    dictGet [("pypi", srcPypi), ("extra", srcExtra)] "extra" = some srcExtra := by
  have hcalc : pbFresh.sanitize_source_indexes =
      .ok { pbFresh with meta :=
        { sources := [("pypi", srcPypi), ("extra", srcExtra)] } } := rfl
  refine ⟨?_, hcalc, ?_⟩
  · exact (claim_C8_sanitize_source_indexes pbConflict).1 (by decide) (by decide)
      ⟨pvConflict, by decide, srcPypiOther, rfl, ("pypi", srcPypi), by decide,
       by decide⟩
  · obtain ⟨pb', h1, h2⟩ :=
      (claim_C8_sanitize_source_indexes pbFresh).2 (by decide) (by decide)
    rw [hcalc] at h1
    have hpb : pb' = { pbFresh with meta :=
        { sources := [("pypi", srcPypi), ("extra", srcExtra)] } } :=
      (Except.ok.inj h1).symm
    have hres := h2 pvFresh (by decide) srcExtra rfl
    rw [hpb] at hres
    exact hres

/-- Two sorted association lists with the same bindings and unique keys are
equal (the canonical sorted-keys serialization is order-independent). -/
theorem sorted_perm_nodupkeys_eq (l₁ : List (String × Json)) :
    ∀ l₂, l₁.Perm l₂ → l₁.Sorted keyLe → l₂.Sorted keyLe →
    (l₁.map Prod.fst).Nodup → l₁ = l₂ := by
  induction l₁ with
  | nil =>
    intro l₂ hp _ _ _
    exact (List.Perm.eq_nil hp.symm).symm
  | cons a t₁ ih =>
    intro l₂ hp hs₁ hs₂ hnd
    cases l₂ with
    | nil => exact absurd (List.Perm.eq_nil hp) (by simp)
    | cons b t₂ =>
      have hab : a = b := by
        have hamem : a ∈ b :: t₂ := hp.mem_iff.mp (List.mem_cons_self a t₁)
        have hbmem : b ∈ a :: t₁ := hp.mem_iff.mpr (List.mem_cons_self b t₂)
        rcases List.mem_cons.mp hamem with h | hat₂
        · exact h
        rcases List.mem_cons.mp hbmem with h | hbt₁
        · exact h.symm
        have h₁ : a.1 ≤ b.1 := (List.sorted_cons.mp hs₁).1 b hbt₁
        have h₂ : b.1 ≤ a.1 := (List.sorted_cons.mp hs₂).1 a hat₂
        exact List.inj_on_of_nodup_map hnd (List.mem_cons_self a t₁)
          (List.mem_cons_of_mem a hbt₁) (le_antisymm h₁ h₂)
      subst hab
      rw [ih t₂ hp.cons_inv (List.sorted_cons.mp hs₁).2 (List.sorted_cons.mp hs₂).2
        (by rw [List.map_cons] at hnd; exact (List.nodup_cons.mp hnd).2)]

/-- `sortByKey` sorts. -/
theorem sortByKey_sorted (l : List (String × Json)) :
    (sortByKey l).Sorted keyLe :=
  List.sorted_insertionSort keyLe l

/-- `sortByKey` permutes. -/
theorem sortByKey_perm (l : List (String × Json)) :
    (sortByKey l).Perm l :=
  List.perm_insertionSort keyLe l

/-- Permuted bindings with unique keys have equal canonical (sorted)
serializations. -/
theorem sortByKey_perm_eq (l₁ l₂ : List (String × Json)) :
    l₁.Perm l₂ → (l₁.map Prod.fst).Nodup → sortByKey l₁ = sortByKey l₂ := by
  intro hp hnd
  refine sorted_perm_nodupkeys_eq (sortByKey l₁) (sortByKey l₂)
    ((sortByKey_perm l₁).trans (hp.trans (sortByKey_perm l₂).symm))
    (sortByKey_sorted l₁) (sortByKey_sorted l₂) ?_
  exact (List.Perm.nodup_iff ((sortByKey_perm l₁).map Prod.fst)).mpr hnd

/-- The Pipfile-shaped entry determines the version constraint. -/
theorem packageEntry_version (pv₁ pv₂ : PackageVersion) :
    packageEntry pv₁ = packageEntry pv₂ → pv₁.version = pv₂.version := by
  cases h₁ : pv₁.index with
  | none =>
    cases h₂ : pv₂.index with
    | none =>
      intro h
      simp only [packageEntry, h₁, h₂, Json.str.injEq] at h
      exact h
    | some i₂ =>
      intro h
      simp only [packageEntry, h₁, h₂] at h
      exact Json.noConfusion h
  | some i₁ =>
    cases h₂ : pv₂.index with
    | none =>
      intro h
      simp only [packageEntry, h₁, h₂] at h
      exact Json.noConfusion h
    | some i₂ =>
      intro h
      simp only [packageEntry, h₁, h₂, Json.obj.injEq, List.cons.injEq,
        Prod.mk.injEq, Json.str.injEq, true_and, and_true] at h
      exact h.2

/-- `Source.to_dict` is injective. -/
theorem source_to_dict_injective :
    Function.Injective Source.to_dict := by
  intro s₁ s₂ h
  simp only [Source.to_dict, Json.obj.injEq, List.cons.injEq, Prod.mk.injEq,
    Json.str.injEq, Json.jbool.injEq, true_and, and_true] at h
  cases s₁
  cases s₂
  simp_all

/-- Equal canonical documents have equal canonical components. -/
theorem dataCanon_components (pf₁ pf₂ : PipfileBase) :
    Pipfile.dataCanon pf₁ = Pipfile.dataCanon pf₂ →
    sortByKey (pf₁.meta.requires.map (fun p => (p.1, Json.str p.2))) =
      sortByKey (pf₂.meta.requires.map (fun p => (p.1, Json.str p.2))) ∧
    pf₁.meta.sources.map (fun p => Source.to_dict p.2) =
      pf₂.meta.sources.map (fun p => Source.to_dict p.2) ∧
    sortByKey pf₁.packages.to_pipfile = sortByKey pf₂.packages.to_pipfile ∧
    sortByKey pf₁.dev_packages.to_pipfile = sortByKey pf₂.dev_packages.to_pipfile := by
  intro h
  simp only [Pipfile.dataCanon, Json.obj.injEq, List.cons.injEq, Prod.mk.injEq,
    Json.arr.injEq, true_and, and_true] at h
  exact ⟨h.1.1, h.1.2, h.2.1, h.2.2⟩

/-- Mapping to Pipfile entries keeps the keys. -/
theorem to_pipfile_keys (l : List (String × PackageVersion)) :
    ((l.map (fun p => (p.1, packageEntry p.2))).map Prod.fst) = l.map Prod.fst := by
  rw [List.map_map]
  rfl

/-- Equal canonical serializations of two package collections force equal
version constraints on any package name they share (under unique names in the
second collection). -/
theorem to_pipfile_version_eq (ps₁ ps₂ : Packages) (n : String)
    (pv₁ pv₂ : PackageVersion) :
    sortByKey ps₁.to_pipfile = sortByKey ps₂.to_pipfile →
    (n, pv₁) ∈ ps₁.packages → (n, pv₂) ∈ ps₂.packages →
    (ps₂.packages.map Prod.fst).Nodup →
    pv₁.version = pv₂.version := by
  intro hdef hm₁ hm₂ hnd₂
  have hent₁ : (n, packageEntry pv₁) ∈ ps₁.to_pipfile :=
    List.mem_map.mpr ⟨(n, pv₁), hm₁, rfl⟩
  have hent₂ : (n, packageEntry pv₁) ∈ ps₂.to_pipfile := by
    have h := (sortByKey_perm ps₁.to_pipfile).mem_iff.mpr hent₁
    rw [hdef] at h
    exact (sortByKey_perm ps₂.to_pipfile).mem_iff.mp h
  obtain ⟨⟨n₂, pv₂'⟩, hmem₂, hpair⟩ := List.mem_map.mp hent₂
  have hn₂ := congrArg Prod.fst hpair
  have hentry : packageEntry pv₂' = packageEntry pv₁ := congrArg Prod.snd hpair
  have hsame : (n₂, pv₂') = (n, pv₂) :=
    List.inj_on_of_nodup_map hnd₂ hmem₂ hm₂ hn₂
  have hpv : pv₂' = pv₂ := congrArg Prod.snd hsame
  have hv := packageEntry_version pv₂' pv₁ hentry
  rw [hpv] at hv
  exact hv.symm

/-- C9: the `{"sha256": digest}` of `Pipfile.hash` — for any injective
serialization `dumps` and digest `sha256hex` standing for `json.dumps` and
`hashlib.sha256(...).hexdigest()` — (1) is invariant under reordering of
package insertion in both collections, and changes whenever (2) some package's
version constraint changes, in the regular or in the dev collection, (3) the
set of `requires` entries changes, or (4) the set of configured sources
changes. -/
theorem claim_C9_pipfile_hash_stability :
    (∀ (S D : Type) (dumps : Json → S) (sha256hex : S → D) (pf₁ pf₂ : PipfileBase),
      pf₁.packages.packages.Perm pf₂.packages.packages →
      pf₁.dev_packages.packages.Perm pf₂.dev_packages.packages →
      (pf₁.packages.packages.map Prod.fst).Nodup →
      (pf₁.dev_packages.packages.map Prod.fst).Nodup →
      pf₁.meta = pf₂.meta →
      pipfileHash dumps sha256hex pf₁ = pipfileHash dumps sha256hex pf₂) ∧
    (∀ (S D : Type) (dumps : Json → S) (sha256hex : S → D),
      Function.Injective dumps → Function.Injective sha256hex →
      ∀ (pf₁ pf₂ : PipfileBase) (n : String) (pv₁ pv₂ : PackageVersion),
      (((n, pv₁) ∈ pf₁.packages.packages ∧ (n, pv₂) ∈ pf₂.packages.packages ∧
        (pf₂.packages.packages.map Prod.fst).Nodup) ∨
       ((n, pv₁) ∈ pf₁.dev_packages.packages ∧
        (n, pv₂) ∈ pf₂.dev_packages.packages ∧
        (pf₂.dev_packages.packages.map Prod.fst).Nodup)) →
      pv₁.version ≠ pv₂.version →
      pipfileHash dumps sha256hex pf₁ ≠ pipfileHash dumps sha256hex pf₂) ∧
    (∀ (S D : Type) (dumps : Json → S) (sha256hex : S → D),
      Function.Injective dumps → Function.Injective sha256hex →
      ∀ (pf₁ pf₂ : PipfileBase) (r : String × String),
      ((r ∈ pf₁.meta.requires ∧ r ∉ pf₂.meta.requires) ∨
       (r ∈ pf₂.meta.requires ∧ r ∉ pf₁.meta.requires)) →
      pipfileHash dumps sha256hex pf₁ ≠ pipfileHash dumps sha256hex pf₂) ∧
    (∀ (S D : Type) (dumps : Json → S) (sha256hex : S → D),
      Function.Injective dumps → Function.Injective sha256hex →
      ∀ (pf₁ pf₂ : PipfileBase) (s : Source),
      ((s ∈ pf₁.meta.sources.map Prod.snd ∧ s ∉ pf₂.meta.sources.map Prod.snd) ∨
       (s ∈ pf₂.meta.sources.map Prod.snd ∧ s ∉ pf₁.meta.sources.map Prod.snd)) →
      pipfileHash dumps sha256hex pf₁ ≠ pipfileHash dumps sha256hex pf₂) := by
  refine ⟨?_, ?_, ?_, ?_⟩
  · intro S D dumps sha256hex pf₁ pf₂ hperm hdperm hnd hdnd hm
    have hpkg : sortByKey pf₁.packages.to_pipfile = sortByKey pf₂.packages.to_pipfile := by
      refine sortByKey_perm_eq _ _ (hperm.map _) ?_
      rw [Packages.to_pipfile, to_pipfile_keys]
      exact hnd
    have hdev : sortByKey pf₁.dev_packages.to_pipfile =
        sortByKey pf₂.dev_packages.to_pipfile := by
      refine sortByKey_perm_eq _ _ (hdperm.map _) ?_
      rw [Packages.to_pipfile, to_pipfile_keys]
      exact hdnd
    have hdata : Pipfile.dataCanon pf₁ = Pipfile.dataCanon pf₂ := by
      rw [Pipfile.dataCanon, Pipfile.dataCanon, hm, hpkg, hdev]
    rw [pipfileHash, pipfileHash, hdata]
  · intro S D dumps sha256hex hdumps hhex pf₁ pf₂ n pv₁ pv₂ hcase hver heq
    have hdata : Pipfile.dataCanon pf₁ = Pipfile.dataCanon pf₂ :=
      hdumps (hhex (congrArg Prod.snd heq))
    rcases hcase with ⟨hm₁, hm₂, hnd₂⟩ | ⟨hm₁, hm₂, hnd₂⟩
    · exact hver (to_pipfile_version_eq pf₁.packages pf₂.packages n pv₁ pv₂
        (dataCanon_components pf₁ pf₂ hdata).2.2.1 hm₁ hm₂ hnd₂)
    · exact hver (to_pipfile_version_eq pf₁.dev_packages pf₂.dev_packages n pv₁ pv₂
        (dataCanon_components pf₁ pf₂ hdata).2.2.2 hm₁ hm₂ hnd₂)
  · intro S D dumps sha256hex hdumps hhex pf₁ pf₂ r hr heq
    have hdata : Pipfile.dataCanon pf₁ = Pipfile.dataCanon pf₂ :=
      hdumps (hhex (congrArg Prod.snd heq))
    have hreq := (dataCanon_components pf₁ pf₂ hdata).1
    have key : ∀ (ra rb : List (String × String)),
        sortByKey (ra.map (fun p => (p.1, Json.str p.2))) =
          sortByKey (rb.map (fun p => (p.1, Json.str p.2))) →
        ∀ p ∈ ra, p ∈ rb := by
      intro ra rb hs p hp
      have h₁ : (p.1, Json.str p.2) ∈ ra.map (fun q => (q.1, Json.str q.2)) :=
        List.mem_map.mpr ⟨p, hp, rfl⟩
      have h₂ := (sortByKey_perm _).mem_iff.mpr h₁
      rw [hs] at h₂
      have h₃ := (sortByKey_perm _).mem_iff.mp h₂
      obtain ⟨q, hq, hqe⟩ := List.mem_map.mp h₃
      have hk := congrArg Prod.fst hqe
      have hv : q.2 = p.2 := Json.str.inj (congrArg Prod.snd hqe)
      have hqp : q = p := Prod.ext hk hv
      exact hqp ▸ hq
    rcases hr with ⟨hin, hout⟩ | ⟨hin, hout⟩
    · exact hout (key _ _ hreq r hin)
    · exact hout (key _ _ hreq.symm r hin)
  · intro S D dumps sha256hex hdumps hhex pf₁ pf₂ s hs heq
    have hdata : Pipfile.dataCanon pf₁ = Pipfile.dataCanon pf₂ :=
      hdumps (hhex (congrArg Prod.snd heq))
    have hsrc := (dataCanon_components pf₁ pf₂ hdata).2.1
    have hvals : pf₁.meta.sources.map Prod.snd = pf₂.meta.sources.map Prod.snd := by
      have h : (pf₁.meta.sources.map Prod.snd).map Source.to_dict =
          (pf₂.meta.sources.map Prod.snd).map Source.to_dict := by
        rw [List.map_map, List.map_map]
        exact hsrc
      exact List.map_injective_iff.mpr source_to_dict_injective h
    rcases hs with ⟨hin, hout⟩ | ⟨hin, hout⟩
    · rw [hvals] at hin
      exact hout hin
    · rw [← hvals] at hin
      exact hout hin

/-- Package `a==1.0` of the C9 witness. -/
def pvA : PackageVersion := { name := "a", version := "==1.0" }

/-- Package `b==2.0` of the C9 witness. -/
def pvB : PackageVersion := { name := "b", version := "==2.0" }

/-- Metadata of the C9 witness. -/
def metaW : PipfileMeta :=
  { sources := [("pypi", srcPypi)], requires := [("python_version", "3.6")] }

/-- The C9 witness Pipfile with insertion order `a` then `b`. -/
def pfOrderAB : PipfileBase :=
  { packages := { packages := [("a", pvA), ("b", pvB)] },
    dev_packages := noDevPackages, meta := metaW }

/-- The C9 witness Pipfile with insertion order `b` then `a`. -/
def pfOrderBA : PipfileBase :=
  { packages := { packages := [("b", pvB), ("a", pvA)] },
    dev_packages := noDevPackages, meta := metaW }

/-- The C9 witness Pipfile with `a`'s version changed. -/
def pfVersionChanged : PipfileBase :=
  { packages := { packages := [("a", { name := "a", version := "==1.1" }), ("b", pvB)] },
    dev_packages := noDevPackages, meta := metaW }

/-- The C9 witness Pipfile with a changed `requires` set. -/
def pfRequiresChanged : PipfileBase :=
  { packages := { packages := [("a", pvA), ("b", pvB)] },
    dev_packages := noDevPackages,
    meta := { sources := [("pypi", srcPypi)], requires := [("python_version", "3.7")] } }

/-- The C9 witness Pipfile with a changed source set. -/
def pfSourcesChanged : PipfileBase :=
  { packages := { packages := [("a", pvA), ("b", pvB)] },
    dev_packages := noDevPackages,
    meta := { sources := [("extra", srcExtra)], requires := [("python_version", "3.6")] } }

/-- Dev package `d==1.0` of the C9 witness. -/
def pvDev : PackageVersion := { name := "d", version := "==1.0", develop := true }

/-- The C9 witness Pipfile holding the dev package `d==1.0`. -/
def pfDevAB : PipfileBase :=
  { packages := { packages := [("a", pvA)] },
    dev_packages := { packages := [("d", pvDev)], develop := true },
    meta := metaW }

/-- The C9 witness Pipfile with the dev package's version changed. -/
def pfDevVersionChanged : PipfileBase :=
  { packages := { packages := [("a", pvA)] },
    dev_packages :=
      { packages := [("d", { name := "d", version := "==1.1", develop := true })],
        develop := true },
    meta := metaW }

/-- Witness for C9 with the identity serialization and digest: reordering the
package insertion keeps the digest; changing a regular package's version, a
dev package's version, the `requires` set, or the source set changes it. -/
theorem claim_C9_pipfile_hash_stability_witness :
    pipfileHash (id : Json → Json) (id : Json → Json) pfOrderAB =
      pipfileHash id id pfOrderBA ∧
    pipfileHash (id : Json → Json) (id : Json → Json) pfOrderAB ≠
      pipfileHash id id pfVersionChanged ∧
    pipfileHash (id : Json → Json) (id : Json → Json) pfDevAB ≠
      pipfileHash id id pfDevVersionChanged ∧
    pipfileHash (id : Json → Json) (id : Json → Json) pfOrderAB ≠
      pipfileHash id id pfRequiresChanged ∧
    pipfileHash (id : Json → Json) (id : Json → Json) pfOrderAB ≠
      pipfileHash id id pfSourcesChanged :=
  ⟨claim_C9_pipfile_hash_stability.1 Json Json id id pfOrderAB pfOrderBA
      (by decide) (by decide) (by decide) (by decide) rfl,
   claim_C9_pipfile_hash_stability.2.1 Json Json id id Function.injective_id
      Function.injective_id pfOrderAB pfVersionChanged "a" pvA
      { name := "a", version := "==1.1" }
      (Or.inl ⟨by decide, by decide, by decide⟩) (by decide),
   claim_C9_pipfile_hash_stability.2.1 Json Json id id Function.injective_id
      Function.injective_id pfDevAB pfDevVersionChanged "d" pvDev
      { name := "d", version := "==1.1", develop := true }
      (Or.inr ⟨by decide, by decide, by decide⟩) (by decide),
   claim_C9_pipfile_hash_stability.2.2.1 Json Json id id Function.injective_id
      Function.injective_id pfOrderAB pfRequiresChanged ("python_version", "3.6")
      (Or.inl ⟨by decide, by decide⟩),
   claim_C9_pipfile_hash_stability.2.2.2 Json Json id id Function.injective_id
      Function.injective_id pfOrderAB pfSourcesChanged srcPypi
      (Or.inl ⟨by decide, by decide⟩)⟩
